import Mathlib

/-! # LogSoftmax kernel (tensorflow/core/kernels/logsoftmax_op.h, logsoftmax_op.cc)

A shallow embedding of the `LogSoftmax` kernel: the Eigen expression code of
`LogSoftmaxEigenImpl::Compute` and the validation / dispatch code of
`LogSoftmaxOp::Compute`.

Scalars are an arbitrary linearly ordered field `T`; the two primitives the
Eigen code takes from the element type (the start value `lowest` of the max
reducer and the exponential `exp`) are explicit arguments, so every definition
is executable.  The theorems on exact values instantiate `T` with the real
numbers and `exp` with `Real.exp`; the theorems on bounds and on order hold for
every exponential that is monotone and non-negative, which covers an
exponential that underflows to `0` as the one of a floating-point type does.

Tensors are row-major: the coefficient `(r, c)` of a matrix with `dim1`
columns is stored at linear offset `r * dim1 + c`.
-/

set_option autoImplicit false
set_option linter.unusedVariables false

namespace tensorflow

/-! ## Data model -/

/-- The type `TTypes<T>::ConstMatrix`: a read-only row-major rank-2 view,
`dim0` rows (batch) by `dim1` columns (classes), over a flat buffer. -/
structure ConstMatrix (T : Type) where
  dim0 : Nat
  dim1 : Nat
  data : Nat → T

/-- The type `TTypes<T>::Matrix`: a writable row-major rank-2 view.  Besides the
buffer the model records, for every linear offset, how many stores the view has
received (`stores`). -/
structure Matrix (T : Type) where
  dim0 : Nat
  dim1 : Nat
  data : Nat → T
  stores : Nat → Nat

/-- The call `logits.dimension(k)`. -/
def ConstMatrix.dimension {T : Type} (m : ConstMatrix T) : Nat → Nat
  | 0 => m.dim0
  | _ => m.dim1

/-- Coefficient `(r, c)` of a read-only matrix. -/
def ConstMatrix.coeff {T : Type} (m : ConstMatrix T) (r c : Nat) : T :=
  m.data (r * m.dim1 + c)

/-- Coefficient `(r, c)` of a writable matrix. -/
def Matrix.coeff {T : Type} (m : Matrix T) (r c : Nat) : T :=
  m.data (r * m.dim1 + c)

/-- One store through a writable view: the coefficient at linear offset `i`
becomes `v` and the store counter of that offset goes up by one. -/
def Matrix.store {T : Type} (m : Matrix T) (i : Nat) (v : T) : Matrix T :=
  { m with
    data := Function.update m.data i v
    stores := Function.update m.stores i (m.stores i + 1) }

/-- A writable view read as an operand of an expression. -/
def Matrix.expr {T : Type} (m : Matrix T) : ConstMatrix T :=
  { dim0 := m.dim0, dim1 := m.dim1, data := m.data }

/-! ## The Eigen primitives used by the kernel

A rank-2 expression is given by its two dimensions and its coefficients by
row-major linear index, that is, by a `ConstMatrix`. -/

namespace Eigen

/-- A rank-1 tensor, the result of reducing a rank-2 expression along one
dimension. -/
structure Tensor1 (T : Type) where
  dim0 : Nat
  data : Nat → T

/-- The method `MaxReducer<T>::reduce`: `if (t > *accum) *accum = t`. -/
def MaxReducer.reduce {T : Type} [LinearOrder T] (t accum : T) : T :=
  if t > accum then t else accum

/-- The method `SumReducer<T>::reduce`: `*accum += t`. -/
def SumReducer.reduce {T : Type} [Add T] (t accum : T) : T :=
  accum + t

/-- Reduction of a rank-2 expression along dimension `dim` followed by
`.eval()`: every entry of the result is the reducer folded, from its initial
value, over the coefficients that differ only in index `dim`. -/
def reduce {T : Type} (reducer : T → T → T) (init : T) (x : ConstMatrix T)
    (dim : Nat) : Tensor1 T :=
  if dim = 0 then
    { dim0 := x.dim1
      data := fun c => (List.range x.dim0).foldl
        (fun accum r => reducer (x.data (r * x.dim1 + c)) accum) init }
  else
    { dim0 := x.dim0
      data := fun r => (List.range x.dim1).foldl
        (fun accum c => reducer (x.data (r * x.dim1 + c)) accum) init }

/-- The expression `x.maximum(dims).eval()`; `lowest` is the initial value of the
max reducer. -/
def maximum {T : Type} [LinearOrder T] (lowest : T) (x : ConstMatrix T) (dim : Nat) :
    Tensor1 T :=
  reduce MaxReducer.reduce lowest x dim

/-- The expression `x.sum(dims).eval()`; the sum reducer starts from `0`. -/
def sum {T : Type} [Zero T] [Add T] (x : ConstMatrix T) (dim : Nat) : Tensor1 T :=
  reduce SumReducer.reduce 0 x dim

/-- The expression `v.reshape(dims)` of a rank-1 tensor to rank 2: the same
coefficients in the same linear order under new dimensions. -/
def reshape {T : Type} (v : Tensor1 T) (dims : Nat × Nat) : ConstMatrix T :=
  { dim0 := dims.1, dim1 := dims.2, data := v.data }

/-- The expression `x.broadcast(bcast)`: `x` is replicated `bcast.1` times along
dimension 0 and `bcast.2` times along dimension 1; coefficient `(r, c)` of the
result is coefficient `(r % x.dim0, c % x.dim1)` of `x`. -/
def broadcast {T : Type} (x : ConstMatrix T) (bcast : Nat × Nat) : ConstMatrix T :=
  { dim0 := x.dim0 * bcast.1
    dim1 := x.dim1 * bcast.2
    data := fun i =>
      x.data (i / (x.dim1 * bcast.2) % x.dim0 * x.dim1 + i % (x.dim1 * bcast.2) % x.dim1) }

/-- The coefficient-wise difference `a - b`. -/
def cwiseDifference {T : Type} [Sub T] (a b : ConstMatrix T) : ConstMatrix T :=
  { dim0 := a.dim0, dim1 := a.dim1, data := fun i => a.data i - b.data i }

/-- The coefficient-wise quotient `a / b`. -/
def cwiseQuotient {T : Type} [Div T] (a b : ConstMatrix T) : ConstMatrix T :=
  { dim0 := a.dim0, dim1 := a.dim1, data := fun i => a.data i / b.data i }

/-- The coefficient-wise exponential `a.exp()`. -/
def exp {T : Type} (scalar_exp : T → T) (a : ConstMatrix T) : ConstMatrix T :=
  { dim0 := a.dim0, dim1 := a.dim1, data := fun i => scalar_exp (a.data i) }

/-- The loop of the tensor executor: for `i = 0, ..., size - 1` coefficient `i`
of the right-hand side is evaluated against the current contents of the buffer
and stored at offset `i`. -/
def TensorExecutor.run {T : Type} (out : Matrix T) (size : Nat)
    (coeff : Matrix T → Nat → T) : Matrix T :=
  (List.range size).foldl (fun cur i => cur.store i (coeff cur i)) out

/-- The statement `out.device(d) = expr`.  The expression may read the buffer
it is assigned to (`expr cur` is the expression over the current contents); its
dimensions give the number of coefficients to evaluate and store. -/
def assign {T : Type} (out : Matrix T) (expr : Matrix T → ConstMatrix T) : Matrix T :=
  TensorExecutor.run out ((expr out).dim0 * (expr out).dim1) (fun cur i => (expr cur).data i)

end Eigen

/-! ## The compute engine -/

/-- The function `LogSoftmaxEigenImpl<Device, T>::Compute`.

Each of the two statements is one `Eigen.assign`.  The reductions carry
`.eval()`, so they are computed in full (`max_eval`, `sum_eval`) before the
assignment that uses them stores its first coefficient; the left operand
`logsoftmax` of the quotient is read from the buffer while it is written. -/
def LogSoftmaxEigenImpl.Compute {Device T : Type} [LinearOrderedField T]
    (lowest : T) (exp : T → T)
    (d : Device) (logits : ConstMatrix T) (logsoftmax : Matrix T) : Matrix T :=
  let kBatchDim := 0
  let kClassDim := 1
  let batch_size := logits.dimension kBatchDim
  let num_classes := logits.dimension kClassDim
  let along_class := kClassDim
  let batch_by_one := (batch_size, 1)
  let one_by_class := (1, num_classes)
  -- logsoftmax = exp(logits - max(logits along classes));
  let max_eval := Eigen.maximum lowest logits along_class
  let logsoftmax := Eigen.assign logsoftmax (fun _ =>
    Eigen.exp exp (Eigen.cwiseDifference logits
      (Eigen.broadcast (Eigen.reshape max_eval batch_by_one) one_by_class)))
  -- logsoftmax = logsoftmax / sum(logsoftmax along classes);
  let sum_eval := Eigen.sum logsoftmax.expr along_class
  Eigen.assign logsoftmax (fun cur =>
    Eigen.cwiseQuotient cur.expr
      (Eigen.broadcast (Eigen.reshape sum_eval batch_by_one) one_by_class))

/-- The CPU specialisation `LogSoftmaxFunctor<CPUDevice, T>::operator()`. -/
def LogSoftmaxFunctor_CPU {CPUDevice T : Type} [LinearOrderedField T]
    (lowest : T) (exp : T → T)
    (d : CPUDevice) (logits : ConstMatrix T) (logsoftmax : Matrix T) : Matrix T :=
  LogSoftmaxEigenImpl.Compute lowest exp d logits logsoftmax

/-! ## The validation / dispatch layer -/

/-- Modelled from the spec: the class `Status` of the host runtime is not under
src/.  The spec's error taxonomy has `InvalidArgument` (built in the source by
`errors::InvalidArgument(msg)`) and `AllocationFailure`, whose underlying cause
is reported by the external allocator. -/
inductive Status where
  | OK
  | InvalidArgument (msg : String)
  | AllocationFailure (cause : String)
  deriving DecidableEq, Repr

/-- The call `errors::InvalidArgument(msg)`. -/
def errors.InvalidArgument (msg : String) : Status :=
  Status.InvalidArgument msg

/-- The class `TensorShape`: the list of dimension sizes. -/
abbrev TensorShape := List Nat

/-- The call `shape.dims()`: the rank. -/
def TensorShape.dims (shape : TensorShape) : Nat :=
  shape.length

/-- The call `shape.dim_size(k)`. -/
def TensorShape.dim_size (shape : TensorShape) (k : Nat) : Nat :=
  shape.getD k 0

/-- Modelled from the spec: `TensorShapeUtils::IsMatrix` is not under src/.  The
spec: "the input must be exactly two-dimensional (batch × class)". -/
def TensorShapeUtils.IsMatrix (shape : TensorShape) : Bool :=
  shape.dims == 2

/-- The class `Tensor`: a shape and a flat row-major buffer. -/
structure Tensor (T : Type) where
  shape : TensorShape
  data : Nat → T

/-- The call `t.matrix<T>()` on a const tensor (used on rank-2 tensors only). -/
def Tensor.matrix {T : Type} (t : Tensor T) : ConstMatrix T :=
  { dim0 := t.shape.dim_size 0, dim1 := t.shape.dim_size 1, data := t.data }

/-- The call `t->matrix<T>()` on a writable tensor (used on rank-2 tensors
only): a writable view of the buffer that has received no store yet. -/
def Tensor.mutable_matrix {T : Type} (t : Tensor T) : Matrix T :=
  { dim0 := t.shape.dim_size 0, dim1 := t.shape.dim_size 1, data := t.data,
    stores := fun _ => 0 }

/-- What the kernel asks of its collaborators, in order. -/
inductive Event where
  | allocate_output (index : Nat) (shape : TensorShape)
  | functor
  deriving DecidableEq, Repr

/-- The class `OpKernelContext`, as far as the kernel uses it: the inputs, the
device, the host allocator (which yields a fresh buffer or the cause of its
failure), the status, the outputs, and the log of requests made so far. -/
structure OpKernelContext (Device T : Type) where
  input : Nat → Tensor T
  eigen_device : Device
  allocator : TensorShape → Except String (Nat → T)
  status : Status
  output : Nat → Option (Tensor T)
  trace : List Event

/-- Modelled from the spec: `OpKernelContext::CtxFailure`, to which the macros
`OP_REQUIRES` and `OP_REQUIRES_OK` hand the error, is not under src/.  The
spec: "the operation fails with" the given condition. -/
def OpKernelContext.CtxFailure {Device T : Type} (ctx : OpKernelContext Device T)
    (s : Status) : OpKernelContext Device T :=
  { ctx with status := s }

/-- Modelled from the spec: `OpKernelContext::allocate_output` is not under src/.
The spec: the layer "requests an output Matrix of identical shape from the host
allocator.  If allocation fails, the operation fails with an `AllocationFailure`
condition (the underlying cause ... is reported by the external allocator)".
The request is logged; on success the fresh tensor becomes output `index`. -/
def OpKernelContext.allocate_output {Device T : Type} (ctx : OpKernelContext Device T)
    (index : Nat) (shape : TensorShape) :
    OpKernelContext Device T × Except Status (Tensor T) :=
  let ctx := { ctx with trace := ctx.trace ++ [Event.allocate_output index shape] }
  match ctx.allocator shape with
  | Except.error cause => (ctx, Except.error (Status.AllocationFailure cause))
  | Except.ok buffer =>
    let tensor : Tensor T := { shape := shape, data := buffer }
    ({ ctx with output := Function.update ctx.output index (some tensor) },
      Except.ok tensor)

/-- The method `LogSoftmaxOp<Device, T>::Compute`.  The template instance
`functor::LogSoftmaxFunctor<Device, T>` is the argument `functor`; it writes
through the view of the output tensor, whose buffer then holds the result. -/
def LogSoftmaxOp.Compute {Device T : Type}
    (functor : Device → ConstMatrix T → Matrix T → Matrix T)
    (context : OpKernelContext Device T) : OpKernelContext Device T :=
  let logits_in := context.input 0
  -- OP_REQUIRES(context, IsMatrix(logits_in.shape()), InvalidArgument(...))
  if !TensorShapeUtils.IsMatrix logits_in.shape then
    context.CtxFailure (errors.InvalidArgument "logits must be 2-dimensional")
  else
    -- OP_REQUIRES_OK(context, context->allocate_output(0, shape, &logsoftmax_out))
    match context.allocate_output 0 logits_in.shape with
    | (context, Except.error s) => context.CtxFailure s
    | (context, Except.ok logsoftmax_out) =>
      let context := { context with trace := context.trace ++ [Event.functor] }
      let written := functor context.eigen_device logits_in.matrix
        logsoftmax_out.mutable_matrix
      { context with
        output := Function.update context.output 0
          (some { logsoftmax_out with data := written.data }) }

/-! ## The statements of the compute engine, one by one -/

namespace Eigen

/-- The loop of the tensor executor with the offsets taken in the order of the
list `order` instead of `0, ..., size - 1`: coefficient `i` of the right-hand
side is evaluated against the current contents of the buffer and stored at
offset `i`, for each `i` of `order` in turn. -/
def TensorExecutor.run_in_order {T : Type} (out : Matrix T) (order : List Nat)
    (coeff : Matrix T → Nat → T) : Matrix T :=
  order.foldl (fun cur i => cur.store i (coeff cur i)) out

end Eigen

/-- The operand of `.exp()` in the first statement of
`LogSoftmaxEigenImpl::Compute`: the exponent arguments
`logits - logits.maximum(along_class).eval().reshape(batch_by_one).broadcast(one_by_class)`. -/
def LogSoftmaxEigenImpl.exponent_arguments {T : Type} [LinearOrderedField T]
    (lowest : T) (logits : ConstMatrix T) : ConstMatrix T :=
  let kBatchDim := 0
  let kClassDim := 1
  let batch_size := logits.dimension kBatchDim
  let num_classes := logits.dimension kClassDim
  let along_class := kClassDim
  let batch_by_one := (batch_size, 1)
  let one_by_class := (1, num_classes)
  Eigen.cwiseDifference logits
    (Eigen.broadcast (Eigen.reshape (Eigen.maximum lowest logits along_class) batch_by_one)
      one_by_class)

/-- The first statement of `LogSoftmaxEigenImpl::Compute`,
`logsoftmax.device(d) = (logits - ...).exp()`: the buffer it leaves. -/
def LogSoftmaxEigenImpl.first_statement {T : Type} [LinearOrderedField T]
    (lowest : T) (exp : T → T) (logits : ConstMatrix T) (logsoftmax : Matrix T) : Matrix T :=
  Eigen.assign logsoftmax (fun _ =>
    Eigen.exp exp (LogSoftmaxEigenImpl.exponent_arguments lowest logits))

/-- The divisor of the second statement of `LogSoftmaxEigenImpl::Compute`,
`logsoftmax.sum(along_class).eval()`, taken from the buffer the statement
starts on. -/
def LogSoftmaxEigenImpl.divisor {T : Type} [LinearOrderedField T]
    (logsoftmax : Matrix T) : Eigen.Tensor1 T :=
  let kClassDim := 1
  let along_class := kClassDim
  Eigen.sum logsoftmax.expr along_class

/-- The second statement of `LogSoftmaxEigenImpl::Compute`,
`logsoftmax.device(d) = logsoftmax / logsoftmax.sum(...).eval()...`, with the
coefficients overwritten in the order of the list `order`.  The row sums are
evaluated from the buffer the statement starts on; the left operand is read
from the buffer while it is overwritten. -/
def LogSoftmaxEigenImpl.second_statement_in_order {T : Type} [LinearOrderedField T]
    (order : List Nat) (logits : ConstMatrix T) (logsoftmax : Matrix T) : Matrix T :=
  let kBatchDim := 0
  let kClassDim := 1
  let batch_size := logits.dimension kBatchDim
  let num_classes := logits.dimension kClassDim
  let batch_by_one := (batch_size, 1)
  let one_by_class := (1, num_classes)
  let sum_eval := LogSoftmaxEigenImpl.divisor logsoftmax
  Eigen.TensorExecutor.run_in_order logsoftmax order (fun cur i =>
    (Eigen.cwiseQuotient cur.expr
      (Eigen.broadcast (Eigen.reshape sum_eval batch_by_one) one_by_class)).data i)

/-! ## Kernel registration -/

/-- Modelled from the spec: the device types `DEVICE_CPU` and `DEVICE_GPU` are
declared outside src/.  The spec: "Device placements supported: CPU ...;
accelerator device". -/
inductive DeviceType where
  | DEVICE_CPU
  | DEVICE_GPU
  deriving DecidableEq, Repr

/-- Modelled from the spec: the element types of the host runtime are declared
outside src/.  `DT_FLOAT` is `float` (float32), `DT_DOUBLE` is `double`
(float64); the others stand for the element types the kernel is not registered
for. -/
inductive DataType where
  | DT_FLOAT
  | DT_DOUBLE
  | DT_INT32
  | DT_UINT8
  | DT_INT16
  | DT_INT8
  | DT_STRING
  | DT_COMPLEX64
  | DT_INT64
  | DT_BOOL
  deriving DecidableEq, Repr

/-- One entry of the kernel registry: what `Name(op).Device(device)
.TypeConstraint<T>("T")` builds, and the template arguments of the kernel class
`LogSoftmaxOp<Device, T>` registered for it. -/
structure KernelDef where
  op : String
  device_type : DeviceType
  type_constraint : DataType
  kernel_device : DeviceType
  kernel_type : DataType
  deriving DecidableEq, Repr

/-- Modelled from the spec: the macro `REGISTER_KERNEL_BUILDER` is not under
src/.  The spec: "an explicit registry data structure (mapping from (operator
name, device, element type) to a factory/handler), populated at process
startup"; a registration adds its entry to the registry. -/
def REGISTER_KERNEL_BUILDER (registry : List KernelDef) (entry : KernelDef) :
    List KernelDef :=
  registry ++ [entry]

/-- The registrations of logsoftmax_op.cc, made on top of the registry they
find; the third one is compiled only when `GOOGLE_CUDA` is set. -/
def RegisterLogSoftmaxKernels (GOOGLE_CUDA : Bool) (registry : List KernelDef) :
    List KernelDef :=
  let registry := REGISTER_KERNEL_BUILDER registry
    { op := "LogSoftmax", device_type := DeviceType.DEVICE_CPU,
      type_constraint := DataType.DT_FLOAT,
      kernel_device := DeviceType.DEVICE_CPU, kernel_type := DataType.DT_FLOAT }
  let registry := REGISTER_KERNEL_BUILDER registry
    { op := "LogSoftmax", device_type := DeviceType.DEVICE_CPU,
      type_constraint := DataType.DT_DOUBLE,
      kernel_device := DeviceType.DEVICE_CPU, kernel_type := DataType.DT_DOUBLE }
  if GOOGLE_CUDA then
    REGISTER_KERNEL_BUILDER registry
      { op := "LogSoftmax", device_type := DeviceType.DEVICE_GPU,
        type_constraint := DataType.DT_FLOAT,
        kernel_device := DeviceType.DEVICE_GPU, kernel_type := DataType.DT_FLOAT }
  else
    registry

/-- Modelled from the spec: the lookup of the kernel registry is not under
src/.  The spec: the registry maps "(operator name, device, element type)" to
the kernel; the lookup returns the first entry that matches all three. -/
def FindKernel (registry : List KernelDef) (op : String) (device_type : DeviceType)
    (T : DataType) : Option KernelDef :=
  registry.find? (fun k => k.op == op && k.device_type == device_type
    && k.type_constraint == T)

/-! ## Constants of the single-precision element type -/

/-- The largest finite `float`, `FLT_MAX = (2 - 2^-23) * 2^127`.  Its negative is
the lowest finite `float`, the value the max reducer starts from when the
element type is `float`; only minus infinity is below it. -/
def FLT_MAX : Nat := 340282346638528859811704183484516925440

/-- An exponential that underflows: `0` for arguments below `threshold`, the exact
exponential `exp` elsewhere.  On `float` the library exponential returns `0` for
every argument below about `-104` (the result is under half of the smallest
subnormal). -/
def exp_with_underflow {T : Type} [LinearOrderedField T] (exp : T → T) (threshold : T)
    (x : T) : T :=
  if x < threshold then 0 else exp x

/-! ## The algorithm in the words of the specification

These definitions follow the specification, not the source: the four steps of
the stable compute engine, the standard softmax and the out-of-place
normalisation.  `LogSoftmaxEigenImpl.Compute` is compared with them. -/

namespace Spec

/-- Step 1 of the specification: `m[r] = max_c(logits[r, c])`, the greatest
coefficient of row `r` of a matrix with at least one column. -/
def m {T : Type} [LinearOrder T] (logits : ConstMatrix T) (h : 1 ≤ logits.dim1)
    (r : Nat) : T :=
  (Finset.range logits.dim1).sup' (Finset.nonempty_range_iff.mpr (Nat.one_le_iff_ne_zero.mp h))
    (fun c => logits.coeff r c)

/-- Step 2 of the specification: `t[r, c] = exp(logits[r, c] - m[r])`. -/
def t {T : Type} [LinearOrderedField T] (exp : T → T) (logits : ConstMatrix T)
    (h : 1 ≤ logits.dim1) (r c : Nat) : T :=
  exp (logits.coeff r c - m logits h r)

/-- Step 3 of the specification: `s[r] = sum_c(t[r, c])`. -/
def s {T : Type} [LinearOrderedField T] (exp : T → T) (logits : ConstMatrix T)
    (h : 1 ≤ logits.dim1) (r : Nat) : T :=
  ∑ c in Finset.range logits.dim1, t exp logits h r c

/-- Step 4 of the specification: `output[r, c] = t[r, c] / s[r]`. -/
def output {T : Type} [LinearOrderedField T] (exp : T → T) (logits : ConstMatrix T)
    (h : 1 ≤ logits.dim1) (r c : Nat) : T :=
  t exp logits h r c / s exp logits h r

/-- The standard (unstabilised) softmax:
`exp(logits[r,c]) / sum over c' of exp(logits[r,c'])`. -/
def softmax {T : Type} [LinearOrderedField T] (exp : T → T) (logits : ConstMatrix T)
    (r c : Nat) : T :=
  exp (logits.coeff r c) / ∑ c' in Finset.range logits.dim1, exp (logits.coeff r c')

/-- The out-of-place normalisation of a matrix `t`: `t[r,c]` divided by the sum
of row `r` of `t`. -/
def normalise {T : Type} [LinearOrderedField T] (t : ConstMatrix T) (r c : Nat) : T :=
  t.coeff r c / ∑ c' in Finset.range t.dim1, t.coeff r c'

end Spec

/-! ## Lemmas on the Eigen primitives -/

namespace Eigen

theorem run_succ {T : Type} (out : Matrix T) (size : Nat) (coeff : Matrix T → Nat → T) :
    TensorExecutor.run out (size + 1) coeff
      = (TensorExecutor.run out size coeff).store size
          (coeff (TensorExecutor.run out size coeff) size) := by
  simp [TensorExecutor.run, List.range_succ, List.foldl_append]

theorem run_dim0 {T : Type} (out : Matrix T) (size : Nat) (coeff : Matrix T → Nat → T) :
    (TensorExecutor.run out size coeff).dim0 = out.dim0 := by
  induction size with
  | zero => rfl
  | succ k ih => rw [run_succ]; exact ih

theorem run_dim1 {T : Type} (out : Matrix T) (size : Nat) (coeff : Matrix T → Nat → T) :
    (TensorExecutor.run out size coeff).dim1 = out.dim1 := by
  induction size with
  | zero => rfl
  | succ k ih => rw [run_succ]; exact ih

/-- A loop whose coefficient `i` reads the written buffer at offset `i` only
replaces every coefficient below `size` by its image and leaves the rest. -/
theorem run_data {T : Type} (out : Matrix T) (size : Nat) (coeff : Matrix T → Nat → T)
    (f : T → Nat → T) (hf : ∀ cur i, coeff cur i = f (cur.data i) i) (j : Nat) :
    (TensorExecutor.run out size coeff).data j
      = if j < size then f (out.data j) j else out.data j := by
  induction size with
  | zero => simp [TensorExecutor.run]
  | succ k ih =>
    rw [run_succ]
    by_cases hjk : j = k
    · subst hjk
      have hk : (TensorExecutor.run out j coeff).data j = out.data j := by
        have := ih
        simpa using this
      simp [Matrix.store, hf, hk]
    · have h1 : (j < k + 1) = (j < k) := by
        apply propext
        omega
      simp only [Matrix.store, Function.update_noteq hjk, ih, h1]

/-- Every offset below `size` receives exactly one store per loop. -/
theorem run_stores {T : Type} (out : Matrix T) (size : Nat) (coeff : Matrix T → Nat → T)
    (j : Nat) :
    (TensorExecutor.run out size coeff).stores j
      = if j < size then out.stores j + 1 else out.stores j := by
  induction size with
  | zero => simp [TensorExecutor.run]
  | succ k ih =>
    rw [run_succ]
    by_cases hjk : j = k
    · subst hjk
      have hk : (TensorExecutor.run out j coeff).stores j = out.stores j := by
        have := ih
        simpa using this
      simp [Matrix.store, hk]
    · have h1 : (j < k + 1) = (j < k) := by
        apply propext
        omega
      simp only [Matrix.store, Function.update_noteq hjk, ih, h1]

theorem assign_dim0 {T : Type} (out : Matrix T) (expr : Matrix T → ConstMatrix T) :
    (assign out expr).dim0 = out.dim0 :=
  run_dim0 _ _ _

theorem assign_dim1 {T : Type} (out : Matrix T) (expr : Matrix T → ConstMatrix T) :
    (assign out expr).dim1 = out.dim1 :=
  run_dim1 _ _ _

/-- An assignment of an expression without coefficients stores nothing. -/
theorem assign_empty {T : Type} (out : Matrix T) (expr : Matrix T → ConstMatrix T)
    (h : (expr out).dim0 * (expr out).dim1 = 0) : assign out expr = out := by
  unfold assign
  rw [h]
  rfl

/-- The sum reduction along dimension 1 is the sum of the coefficients of the
row. -/
theorem sum_along_class {T : Type} [AddCommMonoid T] (x : ConstMatrix T) (r : Nat) :
    (sum x 1).data r = ∑ c in Finset.range x.dim1, x.data (r * x.dim1 + c) := by
  simp only [sum, reduce, if_neg (Nat.one_ne_zero)]
  generalize hg : (fun c => x.data (r * x.dim1 + c)) = g
  have hfold : ∀ k, (List.range k).foldl (fun accum c => SumReducer.reduce (g c) accum) 0
      = ∑ c in Finset.range k, g c := by
    intro k
    induction k with
    | zero => simp
    | succ k ih =>
      rw [List.range_succ, List.foldl_append, ih, Finset.sum_range_succ]
      simp [SumReducer.reduce]
  have h2 := hfold x.dim1
  subst hg
  exact h2

/-- Reshaping a per-row tensor to `batch_size × 1` and broadcasting it by
`1 × num_classes` gives, at every offset of the `batch_size × num_classes`
matrix, the entry of the row the offset lies in. -/
theorem broadcast_reshape_data {T : Type} (v : Tensor1 T) (batch_size num_classes i : Nat)
    (hi : i < batch_size * num_classes) :
    (broadcast (reshape v (batch_size, 1)) (1, num_classes)).data i
      = v.data (i / num_classes) := by
  have hn : 0 < num_classes := by
    rcases Nat.eq_zero_or_pos num_classes with h | h
    · subst h; simp at hi
    · exact h
  have hr : i / num_classes < batch_size := (Nat.div_lt_iff_lt_mul hn).mpr hi
  simp [broadcast, reshape, Nat.mod_one, Nat.mod_eq_of_lt hr]

end Eigen

theorem offset_div {n r c : Nat} (hc : c < n) : (r * n + c) / n = r := by
  have hn : 0 < n := by omega
  rw [Nat.add_comm, Nat.add_mul_div_right _ _ hn, Nat.div_eq_of_lt hc, Nat.zero_add]

theorem offset_lt {b n r c : Nat} (hr : r < b) (hc : c < n) : r * n + c < b * n := by
  calc r * n + c < r * n + n := by omega
    _ = (r + 1) * n := by ring
    _ ≤ b * n := Nat.mul_le_mul_right n hr

/-! ## Lemmas on the compute engine -/

theorem Compute_dim0 {Device T : Type} [LinearOrderedField T] (lowest : T) (exp : T → T)
    (d : Device) (logits : ConstMatrix T) (logsoftmax : Matrix T) :
    (LogSoftmaxEigenImpl.Compute lowest exp d logits logsoftmax).dim0 = logsoftmax.dim0 := by
  simp [LogSoftmaxEigenImpl.Compute, Eigen.assign_dim0]

theorem Compute_dim1 {Device T : Type} [LinearOrderedField T] (lowest : T) (exp : T → T)
    (d : Device) (logits : ConstMatrix T) (logsoftmax : Matrix T) :
    (LogSoftmaxEigenImpl.Compute lowest exp d logits logsoftmax).dim1 = logsoftmax.dim1 := by
  simp [LogSoftmaxEigenImpl.Compute, Eigen.assign_dim1]

/-- The buffer after the first statement of `Compute`. -/
theorem Compute_step1 {T : Type} [LinearOrderedField T] (lowest : T) (exp : T → T)
    (b n : Nat) (x y : Nat → T) (st : Nat → Nat) (j : Nat) :
    (Eigen.assign (⟨b, n, y, st⟩ : Matrix T) (fun _ =>
        Eigen.exp exp (Eigen.cwiseDifference ⟨b, n, x⟩
          (Eigen.broadcast (Eigen.reshape (Eigen.maximum lowest ⟨b, n, x⟩ 1) (b, 1))
            (1, n))))).data j
      = if j < b * n then exp (x j - (Eigen.maximum lowest ⟨b, n, x⟩ 1).data (j / n))
        else y j := by
  unfold Eigen.assign
  rw [Eigen.run_data _ _ _
    (fun _ i => (Eigen.exp exp (Eigen.cwiseDifference ⟨b, n, x⟩
      (Eigen.broadcast (Eigen.reshape (Eigen.maximum lowest ⟨b, n, x⟩ 1) (b, 1))
        (1, n)))).data i) (fun _ _ => rfl)]
  simp only [Eigen.exp, Eigen.cwiseDifference]
  by_cases hj : j < b * n
  · rw [if_pos hj, if_pos hj, Eigen.broadcast_reshape_data _ b n j hj]
  · rw [if_neg hj, if_neg hj]

/-- The buffer that `Compute` leaves, offset by offset, when the output view
has the shape of the input. -/
theorem Compute_data {Device T : Type} [LinearOrderedField T] (lowest : T) (exp : T → T)
    (d : Device) (b n : Nat) (x y : Nat → T) (st : Nat → Nat) (j : Nat) :
    (LogSoftmaxEigenImpl.Compute lowest exp d ⟨b, n, x⟩ ⟨b, n, y, st⟩).data j
      = if j < b * n then
          exp (x j - (Eigen.maximum lowest ⟨b, n, x⟩ 1).data (j / n))
            / ∑ c in Finset.range n,
                exp (x (j / n * n + c) - (Eigen.maximum lowest ⟨b, n, x⟩ 1).data (j / n))
        else y j := by
  unfold LogSoftmaxEigenImpl.Compute
  simp only [ConstMatrix.dimension]
  generalize hstep : Eigen.assign (⟨b, n, y, st⟩ : Matrix T) (fun _ =>
        Eigen.exp exp (Eigen.cwiseDifference ⟨b, n, x⟩
          (Eigen.broadcast (Eigen.reshape (Eigen.maximum lowest ⟨b, n, x⟩ 1) (b, 1))
            (1, n)))) = step
  have hs0 : step.dim0 = b := by rw [← hstep, Eigen.assign_dim0]
  have hs1 : step.dim1 = n := by rw [← hstep, Eigen.assign_dim1]
  have hsd : ∀ k, step.data k
      = if k < b * n then exp (x k - (Eigen.maximum lowest ⟨b, n, x⟩ 1).data (k / n))
        else y k := by
    intro k
    rw [← hstep]
    exact Compute_step1 lowest exp b n x y st k
  unfold Eigen.assign
  refine Eq.trans (Eigen.run_data _ _ _ (fun v i => v / (Eigen.broadcast
    (Eigen.reshape (Eigen.sum step.expr 1) (b, 1)) (1, n)).data i) (fun _ _ => rfl) j) ?_
  simp only [Eigen.cwiseQuotient, Matrix.expr, hs0, hs1]
  by_cases hj : j < b * n
  · have hn : 0 < n := by
      rcases Nat.eq_zero_or_pos n with h | h
      · subst h; simp at hj
      · exact h
    have hr : j / n < b := (Nat.div_lt_iff_lt_mul hn).mpr hj
    rw [if_pos hj, if_pos hj, Eigen.broadcast_reshape_data _ b n j hj, Eigen.sum_along_class,
      hsd j, if_pos hj]
    simp only [hs1]
    congr 1
    apply Finset.sum_congr rfl
    intro c hc
    have hc2 : c < n := Finset.mem_range.mp hc
    rw [hsd, if_pos (offset_lt hr hc2), offset_div hc2]
  · rw [if_neg hj, if_neg hj, hsd j, if_neg hj]

/-- Subtracting one constant from every exponent does not change the quotient
of an exponential by the sum of the exponentials. -/
theorem exp_shift_quotient (n : Nat) (g : Nat → ℝ) (a k : ℝ) :
    Real.exp (a - k) / ∑ c in Finset.range n, Real.exp (g c - k)
      = Real.exp a / ∑ c in Finset.range n, Real.exp (g c) := by
  simp only [Real.exp_sub]
  rw [← Finset.sum_div]
  exact div_div_div_cancel_right₀ (Real.exp_ne_zero k) _ _

theorem sum_exp_pos (n : Nat) (hn : 1 ≤ n) (g : Nat → ℝ) :
    0 < ∑ c in Finset.range n, Real.exp (g c) := by
  apply Finset.sum_pos
  · intro c _
    exact Real.exp_pos _
  · exact Finset.nonempty_range_iff.mpr (Nat.one_le_iff_ne_zero.mp hn)

/-- Over the reals the compute engine leaves, at every coefficient of the
matrix, the exponential of the logit divided by the sum of the exponentials of
its row, whatever the start value `lowest` of the max reducer is. -/
theorem Compute_coeff_real {Device : Type} (lowest : ℝ) (d : Device)
    (logits : ConstMatrix ℝ) (logsoftmax : Matrix ℝ)
    (h0 : logsoftmax.dim0 = logits.dim0) (h1 : logsoftmax.dim1 = logits.dim1)
    (r c : Nat) (hr : r < logits.dim0) (hc : c < logits.dim1) :
    (LogSoftmaxEigenImpl.Compute lowest Real.exp d logits logsoftmax).coeff r c
      = Real.exp (logits.coeff r c)
          / ∑ c' in Finset.range logits.dim1, Real.exp (logits.coeff r c') := by
  obtain ⟨b, n, x⟩ := logits
  obtain ⟨b', n', y, st⟩ := logsoftmax
  simp only at h0 h1 hr hc
  subst h0 h1
  simp only [Matrix.coeff, ConstMatrix.coeff, Compute_dim1]
  rw [Compute_data, if_pos (offset_lt hr hc), offset_div hc]
  exact exp_shift_quotient n' (fun c' => x (r * n' + c')) _ _

/-! ## Theorems on the compute engine -/

/-- C2: over the reals, for every input matrix with at least one column and an
output view of the same shape, `LogSoftmaxEigenImpl::Compute` leaves at every
row `r` and column `c` the value `output[r,c] = t[r,c] / s[r]` of the
specification, where `m[r]` is the greatest logit of row `r`,
`t[r,c] = exp(logits[r,c] - m[r])` and `s[r]` is the sum of `t[r,c]` over the
columns `c`. -/
theorem Compute_eq_spec {Device : Type} (lowest : ℝ) (d : Device)
    (logits : ConstMatrix ℝ) (logsoftmax : Matrix ℝ)
    (h0 : logsoftmax.dim0 = logits.dim0) (h1 : logsoftmax.dim1 = logits.dim1)
    (hn : 1 ≤ logits.dim1) (r c : Nat) (hr : r < logits.dim0) (hc : c < logits.dim1) :
    (LogSoftmaxEigenImpl.Compute lowest Real.exp d logits logsoftmax).coeff r c
      = Spec.output Real.exp logits hn r c := by
  rw [Compute_coeff_real lowest d logits logsoftmax h0 h1 r c hr hc]
  unfold Spec.output Spec.s Spec.t
  exact (exp_shift_quotient logits.dim1 (fun c' => logits.coeff r c') _ _).symm

/-- Witness of C2: the one-by-one matrix `[[0]]`. -/
theorem Compute_eq_spec_witness :
    (LogSoftmaxEigenImpl.Compute (0 : ℝ) Real.exp ()
        ⟨1, 1, fun _ => 0⟩ ⟨1, 1, fun _ => 0, fun _ => 0⟩).coeff 0 0
      = Spec.output Real.exp (⟨1, 1, fun _ => 0⟩ : ConstMatrix ℝ) (le_refl 1) 0 0 :=
  Compute_eq_spec (0 : ℝ) () ⟨1, 1, fun _ => 0⟩ ⟨1, 1, fun _ => 0, fun _ => 0⟩ rfl rfl
    (le_refl 1) 0 0 (by decide) (by decide)

/-- C4: over the reals, for every input matrix with at least one column and
every row `r`, the outputs of `LogSoftmaxEigenImpl::Compute` in row `r` sum to
exactly one. -/
theorem Compute_row_sum_one {Device : Type} (lowest : ℝ) (d : Device)
    (logits : ConstMatrix ℝ) (logsoftmax : Matrix ℝ)
    (h0 : logsoftmax.dim0 = logits.dim0) (h1 : logsoftmax.dim1 = logits.dim1)
    (hn : 1 ≤ logits.dim1) (r : Nat) (hr : r < logits.dim0) :
    ∑ c in Finset.range logits.dim1,
      (LogSoftmaxEigenImpl.Compute lowest Real.exp d logits logsoftmax).coeff r c = 1 := by
  have hpos := sum_exp_pos logits.dim1 hn (fun c' => logits.coeff r c')
  rw [Finset.sum_congr rfl (fun c hc =>
    Compute_coeff_real lowest d logits logsoftmax h0 h1 r c hr (Finset.mem_range.mp hc))]
  rw [← Finset.sum_div]
  exact div_self (ne_of_gt hpos)

/-- Witness of C4: the one-by-two matrix `[[0, 1]]`. -/
theorem Compute_row_sum_one_witness :
    ∑ c in Finset.range 2,
      (LogSoftmaxEigenImpl.Compute (0 : ℝ) Real.exp ()
        ⟨1, 2, fun i => (i : ℝ)⟩ ⟨1, 2, fun _ => 0, fun _ => 0⟩).coeff 0 c = 1 :=
  Compute_row_sum_one (0 : ℝ) () ⟨1, 2, fun i => (i : ℝ)⟩ ⟨1, 2, fun _ => 0, fun _ => 0⟩
    rfl rfl (by decide) 0 (by decide)


/-- C5: evaluation of the compute engine behind `LogSoftmaxFunctor` at the
one-by-one input `[[0]]`.  The log-softmax of that input is
`0 - log(exp 0) = 0`, but the code leaves `1` (the softmax), and the
exponentials of the output row sum to `e`, not to `1`. -/
theorem Compute_at_zero_not_logsoftmax {Device : Type} (lowest : ℝ) (d : Device)
    (y : Nat → ℝ) (st : Nat → Nat) :
    (LogSoftmaxFunctor_CPU lowest Real.exp d ⟨1, 1, fun _ => 0⟩ ⟨1, 1, y, st⟩).coeff 0 0 = 1
    ∧ (ConstMatrix.coeff ⟨1, 1, fun _ => (0 : ℝ)⟩ 0 0
        - Real.log (∑ c' in Finset.range 1,
            Real.exp (ConstMatrix.coeff ⟨1, 1, fun _ => (0 : ℝ)⟩ 0 c')) = 0)
    ∧ (∑ c in Finset.range 1, Real.exp
        ((LogSoftmaxFunctor_CPU lowest Real.exp d ⟨1, 1, fun _ => 0⟩ ⟨1, 1, y, st⟩).coeff 0 c)
          ≠ 1) := by
  have hout : (LogSoftmaxFunctor_CPU lowest Real.exp d
      ⟨1, 1, fun _ => 0⟩ ⟨1, 1, y, st⟩).coeff 0 0 = 1 := by
    unfold LogSoftmaxFunctor_CPU
    rw [Compute_coeff_real lowest d ⟨1, 1, fun _ => 0⟩ ⟨1, 1, y, st⟩ rfl rfl 0 0
      (by decide) (by decide)]
    simp [ConstMatrix.coeff]
  refine ⟨hout, ?_, ?_⟩
  · simp [ConstMatrix.coeff]
  · rw [Finset.sum_range_one, hout]
    intro h
    have h1 : Real.exp 1 = Real.exp 0 := by rw [h, Real.exp_zero]
    have h2 := Real.exp_injective h1
    norm_num at h2

/-- C6: over the reals `LogSoftmaxEigenImpl::Compute` is shift-invariant per
row: if a second input of the same shape has the constant `k` added to every
element of row `r0` and is equal elsewhere, then the two outputs agree at every
row and column (row `r0` and every other row). -/
theorem Compute_shift_invariant {Device : Type} (lowest : ℝ) (d : Device)
    (logits shifted : ConstMatrix ℝ) (logsoftmax logsoftmax2 : Matrix ℝ)
    (hs0 : shifted.dim0 = logits.dim0) (hs1 : shifted.dim1 = logits.dim1)
    (h0 : logsoftmax.dim0 = logits.dim0) (h1 : logsoftmax.dim1 = logits.dim1)
    (g0 : logsoftmax2.dim0 = logits.dim0) (g1 : logsoftmax2.dim1 = logits.dim1)
    (r0 : Nat) (k : ℝ)
    (hrow : ∀ c, c < logits.dim1 → shifted.coeff r0 c = logits.coeff r0 c + k)
    (hrest : ∀ r c, r < logits.dim0 → r ≠ r0 → c < logits.dim1 →
      shifted.coeff r c = logits.coeff r c)
    (r c : Nat) (hr : r < logits.dim0) (hc : c < logits.dim1) :
    (LogSoftmaxEigenImpl.Compute lowest Real.exp d shifted logsoftmax2).coeff r c
      = (LogSoftmaxEigenImpl.Compute lowest Real.exp d logits logsoftmax).coeff r c := by
  rw [Compute_coeff_real lowest d logits logsoftmax h0 h1 r c hr hc,
    Compute_coeff_real lowest d shifted logsoftmax2 (g0.trans hs0.symm) (g1.trans hs1.symm)
      r c (hs0 ▸ hr) (hs1 ▸ hc), hs1]
  by_cases hrr : r = r0
  · subst hrr
    rw [hrow c hc, Finset.sum_congr rfl (fun c' hc' => by
      rw [hrow c' (Finset.mem_range.mp hc')])]
    have := exp_shift_quotient logits.dim1 (fun c' => logits.coeff r c' + k)
      (logits.coeff r c + k) k
    simp only [add_sub_cancel_right] at this
    exact this.symm
  · rw [hrest r c hr hrr hc, Finset.sum_congr rfl (fun c' hc' => by
      rw [hrest r c' hr hrr (Finset.mem_range.mp hc')])]

/-- Witness of C6: the two-by-two matrix `[[0, 1], [2, 3]]` and the matrix
`[[5, 6], [2, 3]]`, which is the first with `5` added to row `0`. -/
theorem Compute_shift_invariant_witness :
    (LogSoftmaxEigenImpl.Compute (0 : ℝ) Real.exp ()
        ⟨2, 2, fun i => if i / 2 = 0 then (i : ℝ) + 5 else (i : ℝ)⟩
        ⟨2, 2, fun _ => 0, fun _ => 0⟩).coeff 0 1
      = (LogSoftmaxEigenImpl.Compute (0 : ℝ) Real.exp ()
        ⟨2, 2, fun i => (i : ℝ)⟩ ⟨2, 2, fun _ => 0, fun _ => 0⟩).coeff 0 1 :=
  Compute_shift_invariant (0 : ℝ) () ⟨2, 2, fun i => (i : ℝ)⟩
    ⟨2, 2, fun i => if i / 2 = 0 then (i : ℝ) + 5 else (i : ℝ)⟩
    ⟨2, 2, fun _ => 0, fun _ => 0⟩ ⟨2, 2, fun _ => 0, fun _ => 0⟩ rfl rfl rfl rfl rfl rfl
    0 5
    (fun c hc => by
      have hc2 : c < 2 := hc
      interval_cases c <;> simp [ConstMatrix.coeff])
    (fun r c hlt hne hc => by
      have hr2 : r < 2 := hlt
      have hc2 : c < 2 := hc
      interval_cases r
      · exact absurd rfl hne
      · interval_cases c <;> simp [ConstMatrix.coeff])
    0 1 (by decide) (by decide)

/-- C7: rows are mutually independent: over the reals, if two input matrices
of the same shape agree on row `r`, the outputs of
`LogSoftmaxEigenImpl::Compute` agree on row `r`, whatever the other rows hold. -/
theorem Compute_rows_independent {Device : Type} (lowest : ℝ) (d : Device)
    (logits other : ConstMatrix ℝ) (logsoftmax logsoftmax2 : Matrix ℝ)
    (hs0 : other.dim0 = logits.dim0) (hs1 : other.dim1 = logits.dim1)
    (h0 : logsoftmax.dim0 = logits.dim0) (h1 : logsoftmax.dim1 = logits.dim1)
    (g0 : logsoftmax2.dim0 = logits.dim0) (g1 : logsoftmax2.dim1 = logits.dim1)
    (r : Nat) (hr : r < logits.dim0)
    (hrow : ∀ c, c < logits.dim1 → other.coeff r c = logits.coeff r c)
    (c : Nat) (hc : c < logits.dim1) :
    (LogSoftmaxEigenImpl.Compute lowest Real.exp d other logsoftmax2).coeff r c
      = (LogSoftmaxEigenImpl.Compute lowest Real.exp d logits logsoftmax).coeff r c := by
  rw [Compute_coeff_real lowest d logits logsoftmax h0 h1 r c hr hc,
    Compute_coeff_real lowest d other logsoftmax2 (g0.trans hs0.symm) (g1.trans hs1.symm)
      r c (hs0 ▸ hr) (hs1 ▸ hc), hs1]
  rw [hrow c hc, Finset.sum_congr rfl (fun c' hc' => by
    rw [hrow c' (Finset.mem_range.mp hc')])]

/-- Witness of C7: the two-by-one matrices `[[0], [1]]` and `[[0], [7]]`, which
agree on row `0` and differ on row `1`. -/
theorem Compute_rows_independent_witness :
    (LogSoftmaxEigenImpl.Compute (0 : ℝ) Real.exp ()
        ⟨2, 1, fun i => (i : ℝ) * 7⟩ ⟨2, 1, fun _ => 0, fun _ => 0⟩).coeff 0 0
      = (LogSoftmaxEigenImpl.Compute (0 : ℝ) Real.exp ()
        ⟨2, 1, fun i => (i : ℝ)⟩ ⟨2, 1, fun _ => 0, fun _ => 0⟩).coeff 0 0 :=
  Compute_rows_independent (0 : ℝ) () ⟨2, 1, fun i => (i : ℝ)⟩ ⟨2, 1, fun i => (i : ℝ) * 7⟩
    ⟨2, 1, fun _ => 0, fun _ => 0⟩ ⟨2, 1, fun _ => 0, fun _ => 0⟩ rfl rfl rfl rfl rfl rfl
    0 (by decide) (fun c hc => by
      have hc0 : c = 0 := by simpa using hc
      subst hc0
      simp [ConstMatrix.coeff])
    0 (by decide)


/-- C8: for every input matrix with `batch_size = 0` or `num_classes = 0` (and an
output view of the same shape) `LogSoftmaxEigenImpl::Compute` returns the output
view exactly as it received it: same shape, no coefficient changed and no store
made (so no coefficient of either expression, hence no division, was
evaluated); the view has no coefficient at all.  With `num_classes = 0` the
max reduction of a row is the reducer's start value and the sum reduction is
zero. -/
theorem Compute_empty {Device T : Type} [LinearOrderedField T] (lowest : T) (exp : T → T)
    (d : Device) (logits : ConstMatrix T) (logsoftmax : Matrix T)
    (h0 : logsoftmax.dim0 = logits.dim0) (h1 : logsoftmax.dim1 = logits.dim1)
    (hempty : logits.dim0 = 0 ∨ logits.dim1 = 0) :
    LogSoftmaxEigenImpl.Compute lowest exp d logits logsoftmax = logsoftmax
    ∧ (LogSoftmaxEigenImpl.Compute lowest exp d logits logsoftmax).dim0
        * (LogSoftmaxEigenImpl.Compute lowest exp d logits logsoftmax).dim1 = 0
    ∧ (logits.dim1 = 0 → ∀ (r : Nat),
        (Eigen.maximum lowest logits 1).data r = lowest
        ∧ (Eigen.sum logsoftmax.expr 1).data r = 0) := by
  have hsize : logits.dim0 * logits.dim1 = 0 := by
    rcases hempty with h | h <;> simp [h]
  have hsize2 : logsoftmax.dim0 * logsoftmax.dim1 = 0 := by rw [h0, h1]; exact hsize
  have hres : LogSoftmaxEigenImpl.Compute lowest exp d logits logsoftmax = logsoftmax := by
    unfold LogSoftmaxEigenImpl.Compute
    simp only [ConstMatrix.dimension]
    rw [Eigen.assign_empty logsoftmax _ hsize]
    exact Eigen.assign_empty logsoftmax _ hsize2
  refine ⟨hres, ?_, ?_⟩
  · rw [hres]; exact hsize2
  · intro hn r
    have hn2 : logsoftmax.expr.dim1 = 0 := by rw [← hn, ← h1]; rfl
    simp [Eigen.maximum, Eigen.sum, Eigen.reduce, hn, hn2]

/-- Witness of C8: a three-by-zero input and a three-by-zero output view. -/
theorem Compute_empty_witness :
    LogSoftmaxEigenImpl.Compute (0 : ℝ) Real.exp () ⟨3, 0, fun _ => 1⟩
        ⟨3, 0, fun _ => 2, fun _ => 0⟩ = ⟨3, 0, fun _ => 2, fun _ => 0⟩
    ∧ (Eigen.maximum (0 : ℝ) ⟨3, 0, fun _ => 1⟩ 1).data 2 = 0 :=
  ⟨(Compute_empty (0 : ℝ) Real.exp () ⟨3, 0, fun _ => 1⟩ ⟨3, 0, fun _ => 2, fun _ => 0⟩
      rfl rfl (Or.inr rfl)).1,
    ((Compute_empty (0 : ℝ) Real.exp () ⟨3, 0, fun _ => 1⟩ ⟨3, 0, fun _ => 2, fun _ => 0⟩
      rfl rfl (Or.inr rfl)).2.2 rfl 2).1⟩


/-- C10: over the reals, (1) in every row whose `n >= 1` entries are all equal,
every output element of `LogSoftmaxEigenImpl::Compute` is `1 / n`; (2) for every
row equal to `[1, 2, 3]` the output row is `[e^-2, e^-1, 1]` divided by
`e^-2 + e^-1 + 1`; (3) the input `[[1, 2, 3], [0, 0, 0]]` yields that first row
and the second row `[1/3, 1/3, 1/3]`. -/
theorem Compute_scenarios {Device : Type} (lowest : ℝ) (d : Device) :
    (∀ (logits : ConstMatrix ℝ) (logsoftmax : Matrix ℝ),
      logsoftmax.dim0 = logits.dim0 → logsoftmax.dim1 = logits.dim1 →
      ∀ (r : Nat) (v : ℝ), r < logits.dim0 → 1 ≤ logits.dim1 →
      (∀ c, c < logits.dim1 → logits.coeff r c = v) →
      ∀ c, c < logits.dim1 →
        (LogSoftmaxEigenImpl.Compute lowest Real.exp d logits logsoftmax).coeff r c
          = 1 / (logits.dim1 : ℝ))
    ∧ (∀ (logits : ConstMatrix ℝ) (logsoftmax : Matrix ℝ),
      logsoftmax.dim0 = logits.dim0 → logsoftmax.dim1 = logits.dim1 →
      ∀ (r : Nat), r < logits.dim0 → logits.dim1 = 3 →
      logits.coeff r 0 = 1 → logits.coeff r 1 = 2 → logits.coeff r 2 = 3 →
        (LogSoftmaxEigenImpl.Compute lowest Real.exp d logits logsoftmax).coeff r 0
          = Real.exp (-2) / (Real.exp (-2) + Real.exp (-1) + 1)
        ∧ (LogSoftmaxEigenImpl.Compute lowest Real.exp d logits logsoftmax).coeff r 1
          = Real.exp (-1) / (Real.exp (-2) + Real.exp (-1) + 1)
        ∧ (LogSoftmaxEigenImpl.Compute lowest Real.exp d logits logsoftmax).coeff r 2
          = 1 / (Real.exp (-2) + Real.exp (-1) + 1))
    ∧ (∀ (y : Nat → ℝ) (st : Nat → Nat),
        (LogSoftmaxEigenImpl.Compute lowest Real.exp d
            ⟨2, 3, fun i => ([1, 2, 3, 0, 0, 0] : List ℝ).getD i 0⟩ ⟨2, 3, y, st⟩).coeff 0 0
          = Real.exp (-2) / (Real.exp (-2) + Real.exp (-1) + 1)
        ∧ (LogSoftmaxEigenImpl.Compute lowest Real.exp d
            ⟨2, 3, fun i => ([1, 2, 3, 0, 0, 0] : List ℝ).getD i 0⟩ ⟨2, 3, y, st⟩).coeff 0 1
          = Real.exp (-1) / (Real.exp (-2) + Real.exp (-1) + 1)
        ∧ (LogSoftmaxEigenImpl.Compute lowest Real.exp d
            ⟨2, 3, fun i => ([1, 2, 3, 0, 0, 0] : List ℝ).getD i 0⟩ ⟨2, 3, y, st⟩).coeff 0 2
          = 1 / (Real.exp (-2) + Real.exp (-1) + 1)
        ∧ (LogSoftmaxEigenImpl.Compute lowest Real.exp d
            ⟨2, 3, fun i => ([1, 2, 3, 0, 0, 0] : List ℝ).getD i 0⟩ ⟨2, 3, y, st⟩).coeff 1 0
          = 1 / 3
        ∧ (LogSoftmaxEigenImpl.Compute lowest Real.exp d
            ⟨2, 3, fun i => ([1, 2, 3, 0, 0, 0] : List ℝ).getD i 0⟩ ⟨2, 3, y, st⟩).coeff 1 1
          = 1 / 3
        ∧ (LogSoftmaxEigenImpl.Compute lowest Real.exp d
            ⟨2, 3, fun i => ([1, 2, 3, 0, 0, 0] : List ℝ).getD i 0⟩ ⟨2, 3, y, st⟩).coeff 1 2
          = 1 / 3) := by
  -- (1) a row of equal entries
  have hequal : ∀ (logits : ConstMatrix ℝ) (logsoftmax : Matrix ℝ),
      logsoftmax.dim0 = logits.dim0 → logsoftmax.dim1 = logits.dim1 →
      ∀ (r : Nat) (v : ℝ), r < logits.dim0 → 1 ≤ logits.dim1 →
      (∀ c, c < logits.dim1 → logits.coeff r c = v) →
      ∀ c, c < logits.dim1 →
        (LogSoftmaxEigenImpl.Compute lowest Real.exp d logits logsoftmax).coeff r c
          = 1 / (logits.dim1 : ℝ) := by
    intro logits logsoftmax h0 h1 r v hr hn hall c hc
    rw [Compute_coeff_real lowest d logits logsoftmax h0 h1 r c hr hc, hall c hc,
      Finset.sum_congr rfl (fun c' hc' => by rw [hall c' (Finset.mem_range.mp hc')])]
    rw [Finset.sum_const, Finset.card_range, nsmul_eq_mul]
    have he : Real.exp v ≠ 0 := Real.exp_ne_zero v
    have hnn : (logits.dim1 : ℝ) ≠ 0 := by
      have : 0 < logits.dim1 := hn
      exact_mod_cast this.ne'
    field_simp
    ring
  -- (2) the row [1, 2, 3]
  have hrow123 : ∀ (logits : ConstMatrix ℝ) (logsoftmax : Matrix ℝ),
      logsoftmax.dim0 = logits.dim0 → logsoftmax.dim1 = logits.dim1 →
      ∀ (r : Nat), r < logits.dim0 → logits.dim1 = 3 →
      logits.coeff r 0 = 1 → logits.coeff r 1 = 2 → logits.coeff r 2 = 3 →
        (LogSoftmaxEigenImpl.Compute lowest Real.exp d logits logsoftmax).coeff r 0
          = Real.exp (-2) / (Real.exp (-2) + Real.exp (-1) + 1)
        ∧ (LogSoftmaxEigenImpl.Compute lowest Real.exp d logits logsoftmax).coeff r 1
          = Real.exp (-1) / (Real.exp (-2) + Real.exp (-1) + 1)
        ∧ (LogSoftmaxEigenImpl.Compute lowest Real.exp d logits logsoftmax).coeff r 2
          = 1 / (Real.exp (-2) + Real.exp (-1) + 1) := by
    intro logits logsoftmax h0 h1 r hr hn3 e0 e1 e2
    have hden : ∑ c' in Finset.range logits.dim1, Real.exp (logits.coeff r c' - 3)
        = Real.exp (-2) + Real.exp (-1) + 1 := by
      rw [hn3, Finset.sum_range_succ, Finset.sum_range_succ, Finset.sum_range_one, e0, e1, e2]
      norm_num
    have hcoeff : ∀ c, c < logits.dim1 →
        (LogSoftmaxEigenImpl.Compute lowest Real.exp d logits logsoftmax).coeff r c
          = Real.exp (logits.coeff r c - 3) / (Real.exp (-2) + Real.exp (-1) + 1) := by
      intro c hc
      rw [Compute_coeff_real lowest d logits logsoftmax h0 h1 r c hr hc, ← hden]
      exact (exp_shift_quotient logits.dim1 (fun c' => logits.coeff r c') _ 3).symm
    refine ⟨?_, ?_, ?_⟩
    · rw [hcoeff 0 (by omega), e0]; norm_num
    · rw [hcoeff 1 (by omega), e1]; norm_num
    · rw [hcoeff 2 (by omega), e2]; norm_num
  refine ⟨hequal, hrow123, ?_⟩
  -- (3) the matrix [[1, 2, 3], [0, 0, 0]]
  intro y st
  have hfirst := hrow123 ⟨2, 3, fun i => ([1, 2, 3, 0, 0, 0] : List ℝ).getD i 0⟩ ⟨2, 3, y, st⟩
    rfl rfl 0 (by decide) rfl (by simp [ConstMatrix.coeff]) (by simp [ConstMatrix.coeff])
    (by simp [ConstMatrix.coeff])
  have hsecond := hequal ⟨2, 3, fun i => ([1, 2, 3, 0, 0, 0] : List ℝ).getD i 0⟩
    ⟨2, 3, y, st⟩ rfl rfl 1 0 (by decide) (by decide)
    (fun c hc => by
      have hc3 : c < 3 := hc
      interval_cases c <;> simp [ConstMatrix.coeff])
  have h3 : ((3 : Nat) : ℝ) = 3 := by norm_num
  simp only [h3] at hsecond
  exact ⟨hfirst.1, hfirst.2.1, hfirst.2.2, hsecond 0 (by decide), hsecond 1 (by decide),
    hsecond 2 (by decide)⟩

/-- Witness of C10: the one-by-two matrix `[[4, 4]]`, whose outputs are `1/2`. -/
theorem Compute_scenarios_witness :
    (LogSoftmaxEigenImpl.Compute (0 : ℝ) Real.exp () ⟨1, 2, fun _ => 4⟩
        ⟨1, 2, fun _ => 0, fun _ => 0⟩).coeff 0 1
      = 1 / (((⟨1, 2, fun _ => 4⟩ : ConstMatrix ℝ).dim1 : Nat) : ℝ) :=
  (Compute_scenarios (0 : ℝ) ()).1 ⟨1, 2, fun _ => 4⟩ ⟨1, 2, fun _ => 0, fun _ => 0⟩ rfl rfl
    0 4 (by decide) (by decide) (fun _ _ => rfl) 1 (by decide)


/-! ## Theorems on the validation / dispatch layer -/

/-- C1: started on a context whose status is OK, `LogSoftmaxOp::Compute` fails
with `InvalidArgument` exactly when the input tensor is not of rank 2.  For an
input whose rank differs from 2 the status becomes the `InvalidArgument` error,
the request log is unchanged (no output buffer is requested, the functor is not
invoked) and no output is touched; for an input of rank 2 the status is not an
`InvalidArgument` error. -/
theorem Compute_InvalidArgument_iff_not_matrix {Device T : Type}
    (functor : Device → ConstMatrix T → Matrix T → Matrix T)
    (context : OpKernelContext Device T) (hok : context.status = Status.OK) :
    ((context.input 0).shape.dims ≠ 2 →
      (LogSoftmaxOp.Compute functor context).status
          = Status.InvalidArgument "logits must be 2-dimensional"
        ∧ (LogSoftmaxOp.Compute functor context).trace = context.trace
        ∧ (LogSoftmaxOp.Compute functor context).output = context.output)
    ∧ ((context.input 0).shape.dims = 2 →
      ∀ msg, (LogSoftmaxOp.Compute functor context).status ≠ Status.InvalidArgument msg) := by
  constructor
  · intro hrank
    have hm : TensorShapeUtils.IsMatrix (context.input 0).shape = false := by
      simp [TensorShapeUtils.IsMatrix, hrank]
    simp [LogSoftmaxOp.Compute, hm, OpKernelContext.CtxFailure, errors.InvalidArgument]
  · intro hrank msg
    have hm : TensorShapeUtils.IsMatrix (context.input 0).shape = true := by
      simp [TensorShapeUtils.IsMatrix, hrank]
    unfold LogSoftmaxOp.Compute OpKernelContext.allocate_output
    simp only [hm, Bool.not_true, Bool.false_eq_true, if_false]
    cases hal : context.allocator (context.input 0).shape with
    | error cause => simp [OpKernelContext.CtxFailure]
    | ok buffer => simp [hok]

/-- Witness of C1: a rank-1 input of shape `[3]` is rejected, a rank-2 input of
shape `[1, 1]` is not. -/
theorem Compute_InvalidArgument_iff_not_matrix_witness :
    (LogSoftmaxOp.Compute (LogSoftmaxFunctor_CPU (0 : ℝ) Real.exp)
        { input := fun _ => ⟨[3], fun _ => 0⟩, eigen_device := (),
          allocator := fun _ => Except.ok (fun _ => 0), status := Status.OK,
          output := fun _ => none, trace := [] }).status
      = Status.InvalidArgument "logits must be 2-dimensional"
    ∧ (LogSoftmaxOp.Compute (LogSoftmaxFunctor_CPU (0 : ℝ) Real.exp)
        { input := fun _ => ⟨[1, 1], fun _ => 0⟩, eigen_device := (),
          allocator := fun _ => Except.ok (fun _ => 0), status := Status.OK,
          output := fun _ => none, trace := [] }).status
      ≠ Status.InvalidArgument "logits must be 2-dimensional" :=
  ⟨((Compute_InvalidArgument_iff_not_matrix (LogSoftmaxFunctor_CPU (0 : ℝ) Real.exp)
      { input := fun _ => ⟨[3], fun _ => 0⟩, eigen_device := (),
        allocator := fun _ => Except.ok (fun _ => 0), status := Status.OK,
        output := fun _ => none, trace := [] } rfl).1 (by decide)).1,
    (Compute_InvalidArgument_iff_not_matrix (LogSoftmaxFunctor_CPU (0 : ℝ) Real.exp)
      { input := fun _ => ⟨[1, 1], fun _ => 0⟩, eigen_device := (),
        allocator := fun _ => Except.ok (fun _ => 0), status := Status.OK,
        output := fun _ => none, trace := [] } rfl).2 rfl "logits must be 2-dimensional"⟩

/-- C3: started on a context whose status is OK, for every rank-2 input for
which the output allocation succeeds, `LogSoftmaxOp::Compute` ends with status
OK; output 0 is a tensor of exactly the input's shape whose buffer holds what
the compute functor produces from the input matrix (written through the view of
the freshly allocated tensor); no other output is touched, and the requests
made are one allocation of the input's shape followed by one functor call. -/
theorem Compute_success {Device T : Type}
    (functor : Device → ConstMatrix T → Matrix T → Matrix T)
    (context : OpKernelContext Device T) (hok : context.status = Status.OK)
    (hrank : (context.input 0).shape.dims = 2) (buffer : Nat → T)
    (halloc : context.allocator (context.input 0).shape = Except.ok buffer) :
    (LogSoftmaxOp.Compute functor context).status = Status.OK
    ∧ (LogSoftmaxOp.Compute functor context).output 0
        = some { shape := (context.input 0).shape,
                 data := (functor context.eigen_device (context.input 0).matrix
                   (Tensor.mutable_matrix ⟨(context.input 0).shape, buffer⟩)).data }
    ∧ (∀ k, k ≠ 0 → (LogSoftmaxOp.Compute functor context).output k = context.output k)
    ∧ (LogSoftmaxOp.Compute functor context).trace
        = context.trace ++ [Event.allocate_output 0 (context.input 0).shape, Event.functor] := by
  have hm : TensorShapeUtils.IsMatrix (context.input 0).shape = true := by
    simp [TensorShapeUtils.IsMatrix, hrank]
  unfold LogSoftmaxOp.Compute OpKernelContext.allocate_output
  simp only [hm, Bool.not_true, Bool.false_eq_true, if_false, halloc]
  refine ⟨hok, ?_, ?_, ?_⟩
  · simp
  · intro k hk
    simp [Function.update_noteq hk]
  · simp

/-- Witness of C3: a rank-2 input of shape `[1, 2]` and an allocator that
succeeds. -/
theorem Compute_success_witness :
    (LogSoftmaxOp.Compute (LogSoftmaxFunctor_CPU (0 : ℝ) Real.exp)
        { input := fun _ => ⟨[1, 2], fun _ => 0⟩, eigen_device := (),
          allocator := fun _ => Except.ok (fun _ => 0), status := Status.OK,
          output := fun _ => none, trace := [] }).status = Status.OK :=
  (Compute_success (LogSoftmaxFunctor_CPU (0 : ℝ) Real.exp)
      { input := fun _ => ⟨[1, 2], fun _ => 0⟩, eigen_device := (),
        allocator := fun _ => Except.ok (fun _ => 0), status := Status.OK,
        output := fun _ => none, trace := [] } rfl rfl (fun _ => 0) rfl).1

/-- C9: for every rank-2 input, if the host allocator fails, then
`LogSoftmaxOp::Compute` fails with the `AllocationFailure` condition carrying
the allocator's cause; the only request made is the one allocation (made once,
the functor is not invoked) and no output is touched. -/
theorem Compute_allocation_failure {Device T : Type}
    (functor : Device → ConstMatrix T → Matrix T → Matrix T)
    (context : OpKernelContext Device T)
    (hrank : (context.input 0).shape.dims = 2) (cause : String)
    (halloc : context.allocator (context.input 0).shape = Except.error cause) :
    (LogSoftmaxOp.Compute functor context).status = Status.AllocationFailure cause
    ∧ (LogSoftmaxOp.Compute functor context).trace
        = context.trace ++ [Event.allocate_output 0 (context.input 0).shape]
    ∧ (LogSoftmaxOp.Compute functor context).output = context.output := by
  have hm : TensorShapeUtils.IsMatrix (context.input 0).shape = true := by
    simp [TensorShapeUtils.IsMatrix, hrank]
  unfold LogSoftmaxOp.Compute OpKernelContext.allocate_output
  simp only [hm, Bool.not_true, Bool.false_eq_true, if_false, halloc]
  exact ⟨rfl, rfl, rfl⟩

/-- Witness of C9: a rank-2 input of shape `[4, 5]` and an allocator that is out
of memory. -/
theorem Compute_allocation_failure_witness :
    (LogSoftmaxOp.Compute (LogSoftmaxFunctor_CPU (0 : ℝ) Real.exp)
        { input := fun _ => ⟨[4, 5], fun _ => 0⟩, eigen_device := (),
          allocator := fun _ => Except.error "out of memory", status := Status.OK,
          output := fun _ => none, trace := [] }).status
      = Status.AllocationFailure "out of memory" :=
  (Compute_allocation_failure (LogSoftmaxFunctor_CPU (0 : ℝ) Real.exp)
      { input := fun _ => ⟨[4, 5], fun _ => 0⟩, eigen_device := (),
        allocator := fun _ => Except.error "out of memory", status := Status.OK,
        output := fun _ => none, trace := [] } rfl "out of memory" rfl).1


/-! ## The compute engine, statement by statement -/

/-- `Compute` is its first statement followed by its second statement, the
latter overwriting the coefficients in linear index order. -/
theorem Compute_eq_statements {Device T : Type} [LinearOrderedField T] (lowest : T)
    (exp : T → T) (d : Device) (logits : ConstMatrix T) (logsoftmax : Matrix T) :
    LogSoftmaxEigenImpl.Compute lowest exp d logits logsoftmax
      = LogSoftmaxEigenImpl.second_statement_in_order
          (List.range ((LogSoftmaxEigenImpl.first_statement lowest exp logits logsoftmax).dim0
            * (LogSoftmaxEigenImpl.first_statement lowest exp logits logsoftmax).dim1))
          logits (LogSoftmaxEigenImpl.first_statement lowest exp logits logsoftmax) :=
  rfl

theorem first_statement_dim0 {T : Type} [LinearOrderedField T] (lowest : T) (exp : T → T)
    (logits : ConstMatrix T) (logsoftmax : Matrix T) :
    (LogSoftmaxEigenImpl.first_statement lowest exp logits logsoftmax).dim0
      = logsoftmax.dim0 :=
  Eigen.assign_dim0 _ _

theorem first_statement_dim1 {T : Type} [LinearOrderedField T] (lowest : T) (exp : T → T)
    (logits : ConstMatrix T) (logsoftmax : Matrix T) :
    (LogSoftmaxEigenImpl.first_statement lowest exp logits logsoftmax).dim1
      = logsoftmax.dim1 :=
  Eigen.assign_dim1 _ _

/-- The store counters that `Compute` leaves: each of the two statements stores
once at every offset of the matrix. -/
theorem Compute_stores_offset {Device T : Type} [LinearOrderedField T] (lowest : T)
    (exp : T → T) (d : Device) (logits : ConstMatrix T) (logsoftmax : Matrix T)
    (h0 : logsoftmax.dim0 = logits.dim0) (h1 : logsoftmax.dim1 = logits.dim1) (j : Nat) :
    (LogSoftmaxEigenImpl.Compute lowest exp d logits logsoftmax).stores j
      = if j < logits.dim0 * logits.dim1 then logsoftmax.stores j + 2
        else logsoftmax.stores j := by
  have hfirst : (LogSoftmaxEigenImpl.first_statement lowest exp logits logsoftmax).stores j
      = if j < logits.dim0 * logits.dim1 then logsoftmax.stores j + 1
        else logsoftmax.stores j := by
    unfold LogSoftmaxEigenImpl.first_statement Eigen.assign
    rw [Eigen.run_stores]
    rfl
  rw [Compute_eq_statements]
  unfold LogSoftmaxEigenImpl.second_statement_in_order
  simp only [first_statement_dim0, first_statement_dim1, h0, h1]
  have hrun := Eigen.run_stores
    (LogSoftmaxEigenImpl.first_statement lowest exp logits logsoftmax)
    (logits.dim0 * logits.dim1)
    (fun cur i => (Eigen.cwiseQuotient cur.expr
      (Eigen.broadcast (Eigen.reshape (LogSoftmaxEigenImpl.divisor
        (LogSoftmaxEigenImpl.first_statement lowest exp logits logsoftmax))
        (logits.dimension 0, 1)) (1, logits.dimension 1))).data i) j
  refine Eq.trans hrun ?_
  rw [hfirst]
  by_cases hj : j < logits.dim0 * logits.dim1
  · simp [hj]
  · simp [hj]

/-! ## Theorems on the stores of the compute engine -/

/-- C11 as stated fails: on the one-by-one input `[[0]]`, with an output view
that has received no store, `LogSoftmaxEigenImpl::Compute` stores twice at
the single element of the output, not once. -/
theorem Compute_writes_twice_example :
    (LogSoftmaxEigenImpl.Compute (0 : ℝ) Real.exp ()
        ⟨1, 1, fun _ => 0⟩ ⟨1, 1, fun _ => 0, fun _ => 0⟩).stores 0 = 2
    ∧ (LogSoftmaxEigenImpl.Compute (0 : ℝ) Real.exp ()
        ⟨1, 1, fun _ => 0⟩ ⟨1, 1, fun _ => 0, fun _ => 0⟩).stores 0 ≠ 1 := by
  have h := Compute_stores_offset (0 : ℝ) Real.exp () ⟨1, 1, fun _ => 0⟩
    ⟨1, 1, fun _ => 0, fun _ => 0⟩ rfl rfl 0
  have h2 : (LogSoftmaxEigenImpl.Compute (0 : ℝ) Real.exp ()
      ⟨1, 1, fun _ => 0⟩ ⟨1, 1, fun _ => 0, fun _ => 0⟩).stores 0 = 2 := by
    rw [h]
    simp
  exact ⟨h2, by rw [h2]; decide⟩

/-- C11, amended: for every input matrix and output view of the same shape,
`LogSoftmaxEigenImpl::Compute` stores at every element `(r, c)` of the output
matrix exactly twice (once in each of its two statements), and at no offset
outside the matrix. -/
theorem Compute_writes_every_element_twice {Device T : Type} [LinearOrderedField T]
    (lowest : T) (exp : T → T) (d : Device) (logits : ConstMatrix T) (logsoftmax : Matrix T)
    (h0 : logsoftmax.dim0 = logits.dim0) (h1 : logsoftmax.dim1 = logits.dim1) :
    (∀ r c, r < logits.dim0 → c < logits.dim1 →
      (LogSoftmaxEigenImpl.Compute lowest exp d logits logsoftmax).stores (r * logits.dim1 + c)
        = logsoftmax.stores (r * logits.dim1 + c) + 2)
    ∧ (∀ j, logits.dim0 * logits.dim1 ≤ j →
      (LogSoftmaxEigenImpl.Compute lowest exp d logits logsoftmax).stores j
        = logsoftmax.stores j) := by
  constructor
  · intro r c hr hc
    rw [Compute_stores_offset lowest exp d logits logsoftmax h0 h1, if_pos (offset_lt hr hc)]
  · intro j hj
    rw [Compute_stores_offset lowest exp d logits logsoftmax h0 h1, if_neg (by omega)]

/-- Witness of C11, amended: the two-by-three input `[[0, 1, 2], [3, 4, 5]]` and
an output view that has received no store; element `(1, 2)` gets two stores. -/
theorem Compute_writes_every_element_twice_witness :
    (LogSoftmaxEigenImpl.Compute (0 : ℝ) Real.exp ()
        ⟨2, 3, fun i => (i : ℝ)⟩ ⟨2, 3, fun _ => 0, fun _ => 0⟩).stores (1 * 3 + 2) = 0 + 2 :=
  (Compute_writes_every_element_twice (0 : ℝ) Real.exp () ⟨2, 3, fun i => (i : ℝ)⟩
    ⟨2, 3, fun _ => 0, fun _ => 0⟩ rfl rfl).1 1 2 (by decide) (by decide)


/-! ## Theorems on the failure report of the dispatch layer -/

/-- C12 as stated fails: a rank-1 input of shape `[3]` and a rank-3 input of
shape `[2, 2, 2]` make `LogSoftmaxOp::Compute` report the very same status, so
the report does not tell which rank was supplied. -/
theorem Compute_report_same_for_rank_1_and_3 :
    (LogSoftmaxOp.Compute (LogSoftmaxFunctor_CPU (0 : ℝ) Real.exp)
        { input := fun _ => ⟨[3], fun _ => 0⟩, eigen_device := (),
          allocator := fun _ => Except.ok (fun _ => 0), status := Status.OK,
          output := fun _ => none, trace := [] }).status
      = (LogSoftmaxOp.Compute (LogSoftmaxFunctor_CPU (0 : ℝ) Real.exp)
        { input := fun _ => ⟨[2, 2, 2], fun _ => 0⟩, eigen_device := (),
          allocator := fun _ => Except.ok (fun _ => 0), status := Status.OK,
          output := fun _ => none, trace := [] }).status
    ∧ TensorShape.dims [3] = 1 ∧ TensorShape.dims [2, 2, 2] = 3 := by
  refine ⟨?_, rfl, rfl⟩
  have hm1 : TensorShapeUtils.IsMatrix [3] = false := by decide
  have hm3 : TensorShapeUtils.IsMatrix [2, 2, 2] = false := by decide
  simp [LogSoftmaxOp.Compute, hm1, hm3, OpKernelContext.CtxFailure]

/-- C12, amended: for every input whose rank is not 2, the failure reported by
`LogSoftmaxOp::Compute` carries its kind (`InvalidArgument`) and the fixed
message "logits must be 2-dimensional", which names the required
dimensionality; two inputs of any offending ranks get the same report. -/
theorem Compute_InvalidArgument_report {Device T : Type}
    (functor : Device → ConstMatrix T → Matrix T → Matrix T)
    (context context2 : OpKernelContext Device T)
    (hrank : (context.input 0).shape.dims ≠ 2)
    (hrank2 : (context2.input 0).shape.dims ≠ 2) :
    (LogSoftmaxOp.Compute functor context).status
        = Status.InvalidArgument "logits must be 2-dimensional"
    ∧ (LogSoftmaxOp.Compute functor context2).status
        = (LogSoftmaxOp.Compute functor context).status := by
  have hreport : ∀ ctx : OpKernelContext Device T, (ctx.input 0).shape.dims ≠ 2 →
      (LogSoftmaxOp.Compute functor ctx).status
        = Status.InvalidArgument "logits must be 2-dimensional" := by
    intro ctx h
    have hm : TensorShapeUtils.IsMatrix (ctx.input 0).shape = false := by
      simp [TensorShapeUtils.IsMatrix, h]
    simp [LogSoftmaxOp.Compute, hm, OpKernelContext.CtxFailure, errors.InvalidArgument]
  exact ⟨hreport context hrank, by rw [hreport context hrank, hreport context2 hrank2]⟩

/-- Witness of C12, amended: a rank-0 input and a rank-4 input of shape
`[1, 2, 3, 4]`. -/
theorem Compute_InvalidArgument_report_witness :
    (LogSoftmaxOp.Compute (LogSoftmaxFunctor_CPU (0 : ℝ) Real.exp)
        { input := fun _ => ⟨[], fun _ => 0⟩, eigen_device := (),
          allocator := fun _ => Except.ok (fun _ => 0), status := Status.OK,
          output := fun _ => none, trace := [] }).status
      = Status.InvalidArgument "logits must be 2-dimensional"
    ∧ (LogSoftmaxOp.Compute (LogSoftmaxFunctor_CPU (0 : ℝ) Real.exp)
        { input := fun _ => ⟨[1, 2, 3, 4], fun _ => 0⟩, eigen_device := (),
          allocator := fun _ => Except.ok (fun _ => 0), status := Status.OK,
          output := fun _ => none, trace := [] }).status
      = (LogSoftmaxOp.Compute (LogSoftmaxFunctor_CPU (0 : ℝ) Real.exp)
        { input := fun _ => ⟨[], fun _ => 0⟩, eigen_device := (),
          allocator := fun _ => Except.ok (fun _ => 0), status := Status.OK,
          output := fun _ => none, trace := [] }).status :=
  Compute_InvalidArgument_report (LogSoftmaxFunctor_CPU (0 : ℝ) Real.exp)
    { input := fun _ => ⟨[], fun _ => 0⟩, eigen_device := (),
      allocator := fun _ => Except.ok (fun _ => 0), status := Status.OK,
      output := fun _ => none, trace := [] }
    { input := fun _ => ⟨[1, 2, 3, 4], fun _ => 0⟩, eigen_device := (),
      allocator := fun _ => Except.ok (fun _ => 0), status := Status.OK,
      output := fun _ => none, trace := [] }
    (by decide) (by decide)


/-! ## Theorems on the kernel registration -/

/-- A registry without an entry for the operator finds no kernel for it. -/
theorem FindKernel_none_of_no_entry (registry : List KernelDef) (op : String)
    (h : ∀ k ∈ registry, k.op ≠ op) (device_type : DeviceType) (T : DataType) :
    FindKernel registry op device_type T = none := by
  unfold FindKernel
  rw [List.find?_eq_none]
  intro k hk
  simp [h k hk]

/-- The lookup in a registry after one more registration. -/
theorem FindKernel_register (registry : List KernelDef) (entry : KernelDef) (op : String)
    (device_type : DeviceType) (T : DataType) :
    FindKernel (REGISTER_KERNEL_BUILDER registry entry) op device_type T
      = (FindKernel registry op device_type T).or
          (if entry.op = op ∧ entry.device_type = device_type ∧ entry.type_constraint = T
            then some entry else none) := by
  unfold FindKernel REGISTER_KERNEL_BUILDER
  rw [List.find?_append]
  congr 1
  by_cases hm : entry.op = op ∧ entry.device_type = device_type ∧ entry.type_constraint = T
  · rw [if_pos hm]
    obtain ⟨h1, h2, h3⟩ := hm
    simp [List.find?, h1, h2, h3]
  · rw [if_neg hm]
    have : (entry.op == op && entry.device_type == device_type
        && entry.type_constraint == T) = false := by
      rw [Bool.eq_false_iff]
      intro hp
      apply hm
      simpa [Bool.and_eq_true, and_assoc] using hp
    simp [List.find?, this]

/-- C13: after the registrations of logsoftmax_op.cc, made on a registry that
held no kernel for the name `LogSoftmax`, a lookup for `LogSoftmax` finds a
kernel exactly for (CPU, float32), (CPU, float64) and, when `GOOGLE_CUDA` is
set, (GPU, float32); the kernel found is `LogSoftmaxOp` instantiated for that
device and element type; a lookup for (GPU, float64) finds no kernel. -/
theorem LogSoftmax_kernels_registered (GOOGLE_CUDA : Bool) (registry : List KernelDef)
    (hbase : ∀ k ∈ registry, k.op ≠ "LogSoftmax")
    (device_type : DeviceType) (T : DataType) :
    ((FindKernel (RegisterLogSoftmaxKernels GOOGLE_CUDA registry) "LogSoftmax"
          device_type T).isSome = true
      ↔ (device_type = DeviceType.DEVICE_CPU ∧ T = DataType.DT_FLOAT)
        ∨ (device_type = DeviceType.DEVICE_CPU ∧ T = DataType.DT_DOUBLE)
        ∨ (GOOGLE_CUDA = true ∧ device_type = DeviceType.DEVICE_GPU ∧ T = DataType.DT_FLOAT))
    ∧ (∀ k, FindKernel (RegisterLogSoftmaxKernels GOOGLE_CUDA registry) "LogSoftmax"
          device_type T = some k →
        k.kernel_device = device_type ∧ k.kernel_type = T)
    ∧ FindKernel (RegisterLogSoftmaxKernels GOOGLE_CUDA registry) "LogSoftmax"
        DeviceType.DEVICE_GPU DataType.DT_DOUBLE = none := by
  have hnone := FindKernel_none_of_no_entry registry "LogSoftmax" hbase
  have hfind : ∀ (dev : DeviceType) (ty : DataType),
      FindKernel (RegisterLogSoftmaxKernels GOOGLE_CUDA registry) "LogSoftmax" dev ty
        = if dev = DeviceType.DEVICE_CPU ∧ ty = DataType.DT_FLOAT then
            some ⟨"LogSoftmax", DeviceType.DEVICE_CPU, DataType.DT_FLOAT,
              DeviceType.DEVICE_CPU, DataType.DT_FLOAT⟩
          else if dev = DeviceType.DEVICE_CPU ∧ ty = DataType.DT_DOUBLE then
            some ⟨"LogSoftmax", DeviceType.DEVICE_CPU, DataType.DT_DOUBLE,
              DeviceType.DEVICE_CPU, DataType.DT_DOUBLE⟩
          else if GOOGLE_CUDA = true ∧ dev = DeviceType.DEVICE_GPU ∧ ty = DataType.DT_FLOAT then
            some ⟨"LogSoftmax", DeviceType.DEVICE_GPU, DataType.DT_FLOAT,
              DeviceType.DEVICE_GPU, DataType.DT_FLOAT⟩
          else none := by
    intro dev ty
    unfold RegisterLogSoftmaxKernels
    cases GOOGLE_CUDA <;> cases dev <;> cases ty <;>
      simp [FindKernel_register, hnone]
  refine ⟨?_, ?_, ?_⟩
  · rw [hfind]
    cases GOOGLE_CUDA <;> cases device_type <;> cases T <;> simp
  · intro k hk
    rw [hfind] at hk
    cases GOOGLE_CUDA <;> cases device_type <;> cases T <;> simp at hk <;>
      (subst hk; exact ⟨rfl, rfl⟩)
  · rw [hfind]
    simp

/-- Witness of C13: the registrations made on the empty registry with
`GOOGLE_CUDA` set; a lookup for (GPU, float32) finds a kernel. -/
theorem LogSoftmax_kernels_registered_witness :
    (FindKernel (RegisterLogSoftmaxKernels true []) "LogSoftmax"
        DeviceType.DEVICE_GPU DataType.DT_FLOAT).isSome = true
    ∧ FindKernel (RegisterLogSoftmaxKernels true []) "LogSoftmax"
        DeviceType.DEVICE_GPU DataType.DT_DOUBLE = none :=
  ⟨((LogSoftmax_kernels_registered true [] (fun _ hk => absurd hk (List.not_mem_nil _))
      DeviceType.DEVICE_GPU DataType.DT_FLOAT).1).2 (Or.inr (Or.inr ⟨rfl, rfl, rfl⟩)),
    (LogSoftmax_kernels_registered true [] (fun _ hk => absurd hk (List.not_mem_nil _))
      DeviceType.DEVICE_GPU DataType.DT_FLOAT).2.2⟩


/-! ## Theorems on the values of the compute engine -/

/-- C14: over the reals the row-max-stabilised computation equals the standard
softmax: for every input matrix with at least one column, an output view of the
same shape, every row `r` and column `c`, `LogSoftmaxEigenImpl::Compute` leaves
`exp(logits[r,c])` divided by the sum over `c'` of `exp(logits[r,c'])`. -/
theorem Compute_eq_softmax {Device : Type} (lowest : ℝ) (d : Device)
    (logits : ConstMatrix ℝ) (logsoftmax : Matrix ℝ)
    (h0 : logsoftmax.dim0 = logits.dim0) (h1 : logsoftmax.dim1 = logits.dim1)
    (hn : 1 ≤ logits.dim1) (r c : Nat) (hr : r < logits.dim0) (hc : c < logits.dim1) :
    (LogSoftmaxEigenImpl.Compute lowest Real.exp d logits logsoftmax).coeff r c
      = Spec.softmax Real.exp logits r c := by
  unfold Spec.softmax
  exact Compute_coeff_real lowest d logits logsoftmax h0 h1 r c hr hc

/-- Witness of C14: the one-by-two matrix `[[0, 1]]`. -/
theorem Compute_eq_softmax_witness :
    (LogSoftmaxEigenImpl.Compute (0 : ℝ) Real.exp ()
        ⟨1, 2, fun i => (i : ℝ)⟩ ⟨1, 2, fun _ => 0, fun _ => 0⟩).coeff 0 1
      = Spec.softmax Real.exp (⟨1, 2, fun i => (i : ℝ)⟩ : ConstMatrix ℝ) 0 1 :=
  Compute_eq_softmax (0 : ℝ) () ⟨1, 2, fun i => (i : ℝ)⟩ ⟨1, 2, fun _ => 0, fun _ => 0⟩
    rfl rfl (by decide) 0 1 (by decide) (by decide)

/-! ## Lemmas on the max reduction and the first statement -/

/-- The max reducer folded over `g 0, ..., g (k - 1)` from `a`: the result is at
least `a` and every `g c`, and it is `a` or one of the `g c`. -/
theorem fold_max_spec {T : Type} [LinearOrder T] (g : Nat → T) (a : T) (k : Nat) :
    a ≤ (List.range k).foldl (fun accum c => Eigen.MaxReducer.reduce (g c) accum) a
    ∧ (∀ c, c < k →
        g c ≤ (List.range k).foldl (fun accum c => Eigen.MaxReducer.reduce (g c) accum) a)
    ∧ ((List.range k).foldl (fun accum c => Eigen.MaxReducer.reduce (g c) accum) a = a
        ∨ ∃ c, c < k ∧
          (List.range k).foldl (fun accum c => Eigen.MaxReducer.reduce (g c) accum) a = g c) := by
  induction k with
  | zero => simp
  | succ k ih =>
    obtain ⟨h1, h2, h3⟩ := ih
    rw [List.range_succ, List.foldl_append]
    simp only [List.foldl_cons, List.foldl_nil]
    generalize (List.range k).foldl (fun accum c => Eigen.MaxReducer.reduce (g c) accum) a = F
      at h1 h2 h3 ⊢
    simp only [Eigen.MaxReducer.reduce]
    by_cases hgt : g k > F
    · rw [if_pos hgt]
      refine ⟨le_trans h1 (le_of_lt hgt), ?_, Or.inr ⟨k, Nat.lt_succ_self k, rfl⟩⟩
      intro c hc
      rcases Nat.lt_succ_iff_lt_or_eq.mp hc with hlt | heq
      · exact le_trans (h2 c hlt) (le_of_lt hgt)
      · rw [heq]
    · rw [if_neg hgt]
      refine ⟨h1, ?_, ?_⟩
      · intro c hc
        rcases Nat.lt_succ_iff_lt_or_eq.mp hc with hlt | heq
        · exact h2 c hlt
        · rw [heq]; exact not_lt.mp hgt
      · rcases h3 with h | ⟨c, hc, h⟩
        · exact Or.inl h
        · exact Or.inr ⟨c, Nat.lt_succ_of_lt hc, h⟩

/-- The max reduction of a row is at least every coefficient of the row. -/
theorem maximum_ge_coeff {T : Type} [LinearOrder T] (lowest : T) (x : ConstMatrix T)
    (r c : Nat) (hc : c < x.dim1) :
    x.coeff r c ≤ (Eigen.maximum lowest x 1).data r := by
  simp only [Eigen.maximum, Eigen.reduce, if_neg (Nat.one_ne_zero)]
  exact (fold_max_spec (fun c => x.data (r * x.dim1 + c)) lowest x.dim1).2.1 c hc

/-- When no coefficient of a non-empty row is below the initial value of the
max reducer, the max reduction of the row is one of its coefficients. -/
theorem maximum_attained {T : Type} [LinearOrder T] (lowest : T) (x : ConstMatrix T)
    (r : Nat) (hn : 1 ≤ x.dim1) (hlow : ∀ c, c < x.dim1 → lowest ≤ x.coeff r c) :
    ∃ c, c < x.dim1 ∧ (Eigen.maximum lowest x 1).data r = x.coeff r c := by
  have hspec := fold_max_spec (fun c => x.data (r * x.dim1 + c)) lowest x.dim1
  have hge := maximum_ge_coeff lowest x r 0 hn
  simp only [Eigen.maximum, Eigen.reduce, if_neg (Nat.one_ne_zero)] at hge ⊢
  rcases hspec.2.2 with h | ⟨c, hc, h⟩
  · refine ⟨0, hn, ?_⟩
    apply le_antisymm
    · rw [h]; exact hlow 0 hn
    · exact hge
  · exact ⟨c, hc, h⟩

/-- The exponent argument at row `r`, column `c`: the logit minus the max
reduction of its row. -/
theorem exponent_arguments_coeff {T : Type} [LinearOrderedField T] (lowest : T)
    (logits : ConstMatrix T) (r c : Nat) (hr : r < logits.dim0) (hc : c < logits.dim1) :
    (LogSoftmaxEigenImpl.exponent_arguments lowest logits).coeff r c
      = logits.coeff r c - (Eigen.maximum lowest logits 1).data r := by
  simp only [LogSoftmaxEigenImpl.exponent_arguments, ConstMatrix.coeff, Eigen.cwiseDifference,
    ConstMatrix.dimension]
  rw [Eigen.broadcast_reshape_data _ logits.dim0 logits.dim1 _ (offset_lt hr hc), offset_div hc]

/-- The intermediate value at row `r`, column `c` after the first statement: the
exponential of the exponent argument. -/
theorem first_statement_coeff {T : Type} [LinearOrderedField T] (lowest : T) (exp : T → T)
    (logits : ConstMatrix T) (logsoftmax : Matrix T)
    (h1 : logsoftmax.dim1 = logits.dim1)
    (r c : Nat) (hr : r < logits.dim0) (hc : c < logits.dim1) :
    (LogSoftmaxEigenImpl.first_statement lowest exp logits logsoftmax).coeff r c
      = exp ((LogSoftmaxEigenImpl.exponent_arguments lowest logits).coeff r c) := by
  have hd : (LogSoftmaxEigenImpl.exponent_arguments lowest logits).dim1 = logits.dim1 := rfl
  have hd0 : (LogSoftmaxEigenImpl.exponent_arguments lowest logits).dim0 = logits.dim0 := rfl
  simp only [Matrix.coeff, ConstMatrix.coeff, first_statement_dim1, h1, hd]
  unfold LogSoftmaxEigenImpl.first_statement Eigen.assign
  refine Eq.trans (Eigen.run_data _ _ _
    (fun _ i => (Eigen.exp exp (LogSoftmaxEigenImpl.exponent_arguments lowest logits)).data i)
    (fun _ _ => rfl) _) ?_
  have hlt : r * logits.dim1 + c
      < (Eigen.exp exp (LogSoftmaxEigenImpl.exponent_arguments lowest logits)).dim0
        * (Eigen.exp exp (LogSoftmaxEigenImpl.exponent_arguments lowest logits)).dim1 :=
    offset_lt hr hc
  rw [if_pos hlt]
  rfl


/-! ## Lemmas on the second statement -/

theorem run_in_order_dim1 {T : Type} (order : List Nat) (coeff : Matrix T → Nat → T)
    (out : Matrix T) :
    (Eigen.TensorExecutor.run_in_order out order coeff).dim1 = out.dim1 := by
  induction order generalizing out with
  | nil => rfl
  | cons i rest ih =>
    simp only [Eigen.TensorExecutor.run_in_order, List.foldl_cons] at ih ⊢
    rw [ih]
    rfl

/-- A loop over distinct offsets whose coefficient `i` reads the written buffer
at offset `i` only replaces the coefficient at every offset of the list by its
image and leaves the rest, whatever the order of the list. -/
theorem run_in_order_data {T : Type} (order : List Nat) (coeff : Matrix T → Nat → T)
    (f : T → Nat → T) (hf : ∀ cur i, coeff cur i = f (cur.data i) i)
    (out : Matrix T) (hnodup : order.Nodup) (j : Nat) :
    (Eigen.TensorExecutor.run_in_order out order coeff).data j
      = if j ∈ order then f (out.data j) j else out.data j := by
  induction order generalizing out with
  | nil => simp [Eigen.TensorExecutor.run_in_order]
  | cons i rest ih =>
    have hi : i ∉ rest := (List.nodup_cons.mp hnodup).1
    have hrest : rest.Nodup := (List.nodup_cons.mp hnodup).2
    have hstep := ih (out.store i (coeff out i)) hrest
    simp only [Eigen.TensorExecutor.run_in_order, List.foldl_cons] at hstep ⊢
    rw [hstep]
    by_cases hji : j = i
    · subst hji
      simp [hi, Matrix.store, hf]
    · by_cases hjr : j ∈ rest
      · simp [hjr, Matrix.store, Function.update_noteq hji]
      · simp [hjr, hji, Matrix.store, Function.update_noteq hji]

/-- The divisor of row `r`: the sum of the coefficients of row `r` of the buffer
the second statement starts on. -/
theorem divisor_eq_row_sum {T : Type} [LinearOrderedField T] (logsoftmax : Matrix T) (r : Nat) :
    (LogSoftmaxEigenImpl.divisor logsoftmax).data r
      = ∑ c in Finset.range logsoftmax.dim1, logsoftmax.coeff r c := by
  unfold LogSoftmaxEigenImpl.divisor
  rw [Eigen.sum_along_class]
  rfl

/-- The second statement, with its stores in any order that visits every offset
of the matrix exactly once, leaves at `(r, c)` the coefficient it found there
divided by the divisor of row `r`. -/
theorem second_statement_coeff {T : Type} [LinearOrderedField T] (order : List Nat)
    (logits : ConstMatrix T) (logsoftmax : Matrix T)
    (h1 : logsoftmax.dim1 = logits.dim1)
    (hnodup : order.Nodup) (hall : ∀ i, i ∈ order ↔ i < logits.dim0 * logits.dim1)
    (r c : Nat) (hr : r < logits.dim0) (hc : c < logits.dim1) :
    (LogSoftmaxEigenImpl.second_statement_in_order order logits logsoftmax).coeff r c
      = logsoftmax.coeff r c / (LogSoftmaxEigenImpl.divisor logsoftmax).data r := by
  unfold LogSoftmaxEigenImpl.second_statement_in_order
  simp only [Matrix.coeff, run_in_order_dim1, h1, ConstMatrix.dimension]
  refine Eq.trans (run_in_order_data order _
    (fun v i => v / (Eigen.broadcast (Eigen.reshape (LogSoftmaxEigenImpl.divisor logsoftmax)
      (logits.dim0, 1)) (1, logits.dim1)).data i) (fun _ _ => rfl) logsoftmax hnodup _) ?_
  rw [if_pos ((hall _).mpr (offset_lt hr hc)),
    Eigen.broadcast_reshape_data _ logits.dim0 logits.dim1 _ (offset_lt hr hc), offset_div hc]


/-! ## Theorems on the second statement and on the functor -/

/-- C18: the in-place second statement is an out-of-place normalisation.  For
every input matrix, output view of the same shape and element `(r, c)`, and for
every order of overwriting that visits every offset of the matrix exactly once,
the second statement leaves `t[r,c]` divided by the sum of row `r` of `t`, where
`t` is the buffer left by the first statement; `Compute`, which overwrites in
linear index order, leaves the same value. -/
theorem second_statement_out_of_place {Device T : Type} [LinearOrderedField T]
    (lowest : T) (exp : T → T) (d : Device) (logits : ConstMatrix T) (logsoftmax : Matrix T)
    (h0 : logsoftmax.dim0 = logits.dim0) (h1 : logsoftmax.dim1 = logits.dim1)
    (order : List Nat) (hnodup : order.Nodup)
    (hall : ∀ i, i ∈ order ↔ i < logits.dim0 * logits.dim1)
    (r c : Nat) (hr : r < logits.dim0) (hc : c < logits.dim1) :
    (LogSoftmaxEigenImpl.second_statement_in_order order logits
        (LogSoftmaxEigenImpl.first_statement lowest exp logits logsoftmax)).coeff r c
      = Spec.normalise (LogSoftmaxEigenImpl.first_statement lowest exp logits logsoftmax).expr r c
    ∧ (LogSoftmaxEigenImpl.Compute lowest exp d logits logsoftmax).coeff r c
      = Spec.normalise (LogSoftmaxEigenImpl.first_statement lowest exp logits logsoftmax).expr
          r c := by
  have hfd1 : (LogSoftmaxEigenImpl.first_statement lowest exp logits logsoftmax).dim1
      = logits.dim1 := by rw [first_statement_dim1, h1]
  have hfd0 : (LogSoftmaxEigenImpl.first_statement lowest exp logits logsoftmax).dim0
      = logits.dim0 := by rw [first_statement_dim0, h0]
  have hnorm : Spec.normalise
      (LogSoftmaxEigenImpl.first_statement lowest exp logits logsoftmax).expr r c
      = (LogSoftmaxEigenImpl.first_statement lowest exp logits logsoftmax).coeff r c
        / (LogSoftmaxEigenImpl.divisor
            (LogSoftmaxEigenImpl.first_statement lowest exp logits logsoftmax)).data r := by
    rw [divisor_eq_row_sum]
    rfl
  rw [hnorm]
  constructor
  · exact second_statement_coeff order logits _ hfd1 hnodup hall r c hr hc
  · rw [Compute_eq_statements, hfd0, hfd1]
    exact second_statement_coeff _ logits _ hfd1 (List.nodup_range _)
      (fun i => List.mem_range) r c hr hc

/-- Witness of C18: the one-by-two matrix `[[0, 1]]`, overwritten in the order
`1, 0`. -/
theorem second_statement_out_of_place_witness :
    (LogSoftmaxEigenImpl.second_statement_in_order [1, 0] ⟨1, 2, fun i => (i : ℝ)⟩
        (LogSoftmaxEigenImpl.first_statement (0 : ℝ) Real.exp ⟨1, 2, fun i => (i : ℝ)⟩
          ⟨1, 2, fun _ => 0, fun _ => 0⟩)).coeff 0 0
      = Spec.normalise (LogSoftmaxEigenImpl.first_statement (0 : ℝ) Real.exp
          ⟨1, 2, fun i => (i : ℝ)⟩ ⟨1, 2, fun _ => 0, fun _ => 0⟩).expr 0 0 :=
  (second_statement_out_of_place (0 : ℝ) Real.exp () ⟨1, 2, fun i => (i : ℝ)⟩
    ⟨1, 2, fun _ => 0, fun _ => 0⟩ rfl rfl [1, 0] (by decide)
    (fun i => by
      have h2 : (⟨1, 2, fun i => (i : ℝ)⟩ : ConstMatrix ℝ).dim0
          * (⟨1, 2, fun i => (i : ℝ)⟩ : ConstMatrix ℝ).dim1 = 2 := rfl
      rw [h2]
      simp only [List.mem_cons, List.mem_singleton, List.not_mem_nil, or_false]
      omega)
    0 0 (by decide) (by decide)).1

/-- The reducer folded over two runs of values that agree gives the same
result. -/
theorem fold_reduce_congr {T : Type} (reducer : T → T → T) (a : T) (g g2 : Nat → T) (k : Nat)
    (h : ∀ c, c < k → g2 c = g c) :
    (List.range k).foldl (fun accum c => reducer (g2 c) accum) a
      = (List.range k).foldl (fun accum c => reducer (g c) accum) a := by
  induction k with
  | zero => rfl
  | succ k ih =>
    rw [List.range_succ, List.foldl_append, List.foldl_append,
      ih (fun c hc => h c (Nat.lt_succ_of_lt hc))]
    simp only [List.foldl_cons, List.foldl_nil, h k (Nat.lt_succ_self k)]

/-- The coefficients that `Compute` leaves in row `r` are determined by the
coefficients of row `r` of the input, for any scalar field and any `exp`. -/
theorem Compute_coeff_congr {Device T : Type} [LinearOrderedField T] (lowest : T)
    (exp : T → T) (d d2 : Device) (logits logits2 : ConstMatrix T)
    (logsoftmax logsoftmax2 : Matrix T)
    (hs0 : logits2.dim0 = logits.dim0) (hs1 : logits2.dim1 = logits.dim1)
    (h0 : logsoftmax.dim0 = logits.dim0) (h1 : logsoftmax.dim1 = logits.dim1)
    (g0 : logsoftmax2.dim0 = logits.dim0) (g1 : logsoftmax2.dim1 = logits.dim1)
    (r : Nat) (hr : r < logits.dim0)
    (hrow : ∀ c, c < logits.dim1 → logits2.coeff r c = logits.coeff r c)
    (c : Nat) (hc : c < logits.dim1) :
    (LogSoftmaxEigenImpl.Compute lowest exp d2 logits2 logsoftmax2).coeff r c
      = (LogSoftmaxEigenImpl.Compute lowest exp d logits logsoftmax).coeff r c := by
  obtain ⟨b, n, x⟩ := logits
  obtain ⟨b2, n2, x2⟩ := logits2
  obtain ⟨b3, n3, y, st⟩ := logsoftmax
  obtain ⟨b4, n4, y2, st2⟩ := logsoftmax2
  simp only at hs0 hs1 h0 h1 g0 g1 hr hc
  subst hs0 hs1 h0 h1
  subst g0 g1
  simp only [ConstMatrix.coeff] at hrow
  have hmax : (Eigen.maximum lowest (⟨b4, n4, x2⟩ : ConstMatrix T) 1).data r
      = (Eigen.maximum lowest (⟨b4, n4, x⟩ : ConstMatrix T) 1).data r := by
    simp only [Eigen.maximum, Eigen.reduce, if_neg (Nat.one_ne_zero)]
    exact fold_reduce_congr _ _ _ _ _ hrow
  simp only [Matrix.coeff, Compute_dim1]
  rw [Compute_data, Compute_data, if_pos (offset_lt hr hc), if_pos (offset_lt hr hc),
    offset_div hc, hmax, hrow c hc]
  congr 1
  apply Finset.sum_congr rfl
  intro c' hc'
  rw [hrow c' (Finset.mem_range.mp hc')]

/-- C17: the result of `LogSoftmaxFunctor<CPUDevice, T>` depends on the input
matrix only.  For every two device contexts, every two input matrices that are
equal (same shape, same coefficients) and every two output views of that shape,
whatever they held before, the two invocations leave equal coefficients at every
`(r, c)`; the functor returns what `LogSoftmaxEigenImpl::Compute` returns, and
on the same output view the device context does not change the result. -/
theorem LogSoftmaxFunctor_CPU_depends_on_input_only {CPUDevice T : Type}
    [LinearOrderedField T] (lowest : T) (exp : T → T) (d d2 : CPUDevice)
    (logits logits2 : ConstMatrix T) (logsoftmax logsoftmax2 : Matrix T)
    (hs0 : logits2.dim0 = logits.dim0) (hs1 : logits2.dim1 = logits.dim1)
    (h0 : logsoftmax.dim0 = logits.dim0) (h1 : logsoftmax.dim1 = logits.dim1)
    (g0 : logsoftmax2.dim0 = logits.dim0) (g1 : logsoftmax2.dim1 = logits.dim1)
    (heq : ∀ r c, r < logits.dim0 → c < logits.dim1 →
      logits2.coeff r c = logits.coeff r c) :
    (∀ r c, r < logits.dim0 → c < logits.dim1 →
      (LogSoftmaxFunctor_CPU lowest exp d2 logits2 logsoftmax2).coeff r c
        = (LogSoftmaxFunctor_CPU lowest exp d logits logsoftmax).coeff r c)
    ∧ LogSoftmaxFunctor_CPU lowest exp d logits logsoftmax
        = LogSoftmaxEigenImpl.Compute lowest exp d logits logsoftmax
    ∧ LogSoftmaxFunctor_CPU lowest exp d2 logits logsoftmax
        = LogSoftmaxFunctor_CPU lowest exp d logits logsoftmax := by
  refine ⟨?_, rfl, rfl⟩
  intro r c hr hc
  unfold LogSoftmaxFunctor_CPU
  exact Compute_coeff_congr lowest exp d d2 logits logits2 logsoftmax logsoftmax2
    hs0 hs1 h0 h1 g0 g1 r hr (fun c' hc' => heq r c' hr hc') c hc

/-- Witness of C17: the one-by-two matrix `[[0, 1]]`, written once into a view
that held zeros and once into a view that held sevens and had been stored to,
under two device contexts. -/
theorem LogSoftmaxFunctor_CPU_depends_on_input_only_witness :
    (LogSoftmaxFunctor_CPU (0 : ℝ) Real.exp (2 : Nat) ⟨1, 2, fun i => (i : ℝ)⟩
        ⟨1, 2, fun _ => 7, fun _ => 3⟩).coeff 0 1
      = (LogSoftmaxFunctor_CPU (0 : ℝ) Real.exp (1 : Nat) ⟨1, 2, fun i => (i : ℝ)⟩
        ⟨1, 2, fun _ => 0, fun _ => 0⟩).coeff 0 1 :=
  (LogSoftmaxFunctor_CPU_depends_on_input_only (0 : ℝ) Real.exp (1 : Nat) (2 : Nat)
    ⟨1, 2, fun i => (i : ℝ)⟩ ⟨1, 2, fun i => (i : ℝ)⟩
    ⟨1, 2, fun _ => 0, fun _ => 0⟩ ⟨1, 2, fun _ => 7, fun _ => 3⟩
    rfl rfl rfl rfl rfl rfl (fun _ _ _ _ => rfl)).1 0 1 (by decide) (by decide)


/-! ## The compute engine in terms of its two statements -/

/-- The intermediate value at `(r, c)`: the exponential of the logit minus the
max reduction of its row. -/
theorem first_statement_coeff_exp {T : Type} [LinearOrderedField T] (lowest : T)
    (exp : T → T) (logits : ConstMatrix T) (logsoftmax : Matrix T)
    (h1 : logsoftmax.dim1 = logits.dim1)
    (r c : Nat) (hr : r < logits.dim0) (hc : c < logits.dim1) :
    (LogSoftmaxEigenImpl.first_statement lowest exp logits logsoftmax).coeff r c
      = exp (logits.coeff r c - (Eigen.maximum lowest logits 1).data r) := by
  rw [first_statement_coeff lowest exp logits logsoftmax h1 r c hr hc,
    exponent_arguments_coeff lowest logits r c hr hc]

/-- The divisor of row `r` is the sum of the intermediate values of row `r`. -/
theorem divisor_first_statement {T : Type} [LinearOrderedField T] (lowest : T)
    (exp : T → T) (logits : ConstMatrix T) (logsoftmax : Matrix T)
    (h1 : logsoftmax.dim1 = logits.dim1) (r : Nat) :
    (LogSoftmaxEigenImpl.divisor
        (LogSoftmaxEigenImpl.first_statement lowest exp logits logsoftmax)).data r
      = ∑ c in Finset.range logits.dim1,
          (LogSoftmaxEigenImpl.first_statement lowest exp logits logsoftmax).coeff r c := by
  rw [divisor_eq_row_sum, first_statement_dim1, h1]

/-- The output at `(r, c)` is the intermediate value divided by the divisor of
row `r`. -/
theorem Compute_coeff_quotient {Device T : Type} [LinearOrderedField T] (lowest : T)
    (exp : T → T) (d : Device) (logits : ConstMatrix T) (logsoftmax : Matrix T)
    (h0 : logsoftmax.dim0 = logits.dim0) (h1 : logsoftmax.dim1 = logits.dim1)
    (r c : Nat) (hr : r < logits.dim0) (hc : c < logits.dim1) :
    (LogSoftmaxEigenImpl.Compute lowest exp d logits logsoftmax).coeff r c
      = (LogSoftmaxEigenImpl.first_statement lowest exp logits logsoftmax).coeff r c
        / (LogSoftmaxEigenImpl.divisor
            (LogSoftmaxEigenImpl.first_statement lowest exp logits logsoftmax)).data r := by
  have hfd1 : (LogSoftmaxEigenImpl.first_statement lowest exp logits logsoftmax).dim1
      = logits.dim1 := by rw [first_statement_dim1, h1]
  have hfd0 : (LogSoftmaxEigenImpl.first_statement lowest exp logits logsoftmax).dim0
      = logits.dim0 := by rw [first_statement_dim0, h0]
  rw [Compute_eq_statements, hfd0, hfd1]
  exact second_statement_coeff _ logits _ hfd1 (List.nodup_range _)
    (fun i => List.mem_range) r c hr hc

/-- The max reduction is at least the initial value of the max reducer. -/
theorem maximum_ge_lowest {T : Type} [LinearOrder T] (lowest : T) (x : ConstMatrix T)
    (r : Nat) : lowest ≤ (Eigen.maximum lowest x 1).data r := by
  simp only [Eigen.maximum, Eigen.reduce, if_neg (Nat.one_ne_zero)]
  exact (fold_max_spec (fun c => x.data (r * x.dim1 + c)) lowest x.dim1).1


/-! ## Lemmas on the exponential with underflow -/

theorem exp_with_underflow_zero : exp_with_underflow Real.exp (-104) 0 = 1 := by
  unfold exp_with_underflow
  rw [if_neg (by norm_num), Real.exp_zero]

theorem exp_with_underflow_nonneg (x : ℝ) : 0 ≤ exp_with_underflow Real.exp (-104) x := by
  unfold exp_with_underflow
  split_ifs
  · exact le_refl 0
  · exact le_of_lt (Real.exp_pos x)

theorem exp_with_underflow_mono (x y : ℝ) (h : x ≤ y) :
    exp_with_underflow Real.exp (-104) x ≤ exp_with_underflow Real.exp (-104) y := by
  unfold exp_with_underflow
  split_ifs with hx hy hy
  · exact le_refl 0
  · exact le_of_lt (Real.exp_pos y)
  · exact absurd (lt_of_le_of_lt h hy) hx
  · exact Real.exp_le_exp.mpr h

theorem exp_with_underflow_below (x : ℝ) (h : x < -104) :
    exp_with_underflow Real.exp (-104) x = 0 := by
  unfold exp_with_underflow
  rw [if_pos h]

theorem FLT_MAX_pos : (0 : ℝ) < (FLT_MAX : ℝ) := by
  unfold FLT_MAX
  norm_num

theorem FLT_MAX_large : (1000 : ℝ) < (FLT_MAX : ℝ) := by
  unfold FLT_MAX
  norm_num

/-- With the start value `-FLT_MAX` and the exponential that underflows, the row
`[0, -1000]` has the intermediate value `0` in column `1`. -/
theorem underflow_row_intermediate :
    (LogSoftmaxEigenImpl.first_statement (-(FLT_MAX : ℝ)) (exp_with_underflow Real.exp (-104))
        ⟨1, 2, fun i => if i = 0 then 0 else -1000⟩ ⟨1, 2, fun _ => 0, fun _ => 0⟩).coeff 0 1
      = 0 := by
  rw [first_statement_coeff_exp (-(FLT_MAX : ℝ)) (exp_with_underflow Real.exp (-104))
    ⟨1, 2, fun i => if i = 0 then 0 else -1000⟩ ⟨1, 2, fun _ => 0, fun _ => 0⟩ rfl 0 1
    (by decide) (by decide)]
  apply exp_with_underflow_below
  have hmax := maximum_ge_coeff (-(FLT_MAX : ℝ))
    (⟨1, 2, fun i => if i = 0 then 0 else -1000⟩ : ConstMatrix ℝ) 0 0 (by decide)
  simp only [ConstMatrix.coeff] at hmax ⊢
  norm_num at hmax ⊢
  linarith

/-! ## Theorems on the intermediate values of the compute engine -/

/-- C15 as stated fails, in two ways.  (1) With the `float` start value
`-FLT_MAX` of the max reducer and an exponential that underflows, the row
`[0, -1000]` has the intermediate value `t[0,1] = exp(-1000) = 0`, which is not
in `(0, 1]`.  (2) In a row whose only logit is below the start value of the max
reducer (as minus infinity is below `-FLT_MAX`), the max reduction is the start
value and no exponent argument is `0`. -/
theorem first_statement_bounds_counterexample :
    (LogSoftmaxEigenImpl.first_statement (-(FLT_MAX : ℝ)) (exp_with_underflow Real.exp (-104))
        ⟨1, 2, fun i => if i = 0 then 0 else -1000⟩ ⟨1, 2, fun _ => 0, fun _ => 0⟩).coeff 0 1
      = 0
    ∧ ¬ ∃ c, c < 1
        ∧ (LogSoftmaxEigenImpl.exponent_arguments (-(FLT_MAX : ℝ))
            ⟨1, 1, fun _ => -(2 * (FLT_MAX : ℝ))⟩).coeff 0 c = 0 := by
  constructor
  · exact underflow_row_intermediate
  · rintro ⟨c, hc, h⟩
    have hc0 : c = 0 := by omega
    subst hc0
    rw [exponent_arguments_coeff (-(FLT_MAX : ℝ)) ⟨1, 1, fun _ => -(2 * (FLT_MAX : ℝ))⟩ 0 0
      (by decide) (by decide)] at h
    have hlow := maximum_ge_lowest (-(FLT_MAX : ℝ))
      (⟨1, 1, fun _ => -(2 * (FLT_MAX : ℝ))⟩ : ConstMatrix ℝ) 0
    simp only [ConstMatrix.coeff] at h
    have hpos := FLT_MAX_pos
    linarith

/-- C15, amended: in exact arithmetic on finite values, for every input matrix
and every row `r` with at least one column, and for every exponential that is
monotone, non-negative and `1` at `0` (the exact one, and one that underflows
to `0`): every exponent argument `logits[r,c] - m[r]` of the first statement is
at most `0` and every intermediate value `t[r,c]` lies in `[0, 1]`; when the
exponential is positive (exact real arithmetic) `t[r,c]` lies in `(0, 1]`; and
when no logit of the row is below the start value `lowest` of the max reducer,
the argument is `0` and the intermediate value is `1` for at least one
column. -/
theorem first_statement_bounds {T : Type} [LinearOrderedField T] (lowest : T) (exp : T → T)
    (hexp0 : exp 0 = 1) (hmono : ∀ x y, x ≤ y → exp x ≤ exp y) (hnonneg : ∀ x, 0 ≤ exp x)
    (logits : ConstMatrix T) (logsoftmax : Matrix T)
    (h1 : logsoftmax.dim1 = logits.dim1) (hn : 1 ≤ logits.dim1)
    (r : Nat) (hr : r < logits.dim0) :
    (∀ c, c < logits.dim1 →
      (LogSoftmaxEigenImpl.exponent_arguments lowest logits).coeff r c ≤ 0
      ∧ 0 ≤ (LogSoftmaxEigenImpl.first_statement lowest exp logits logsoftmax).coeff r c
      ∧ (LogSoftmaxEigenImpl.first_statement lowest exp logits logsoftmax).coeff r c ≤ 1)
    ∧ ((∀ x, 0 < exp x) → ∀ c, c < logits.dim1 →
      0 < (LogSoftmaxEigenImpl.first_statement lowest exp logits logsoftmax).coeff r c)
    ∧ ((∀ c, c < logits.dim1 → lowest ≤ logits.coeff r c) →
      ∃ c, c < logits.dim1
        ∧ (LogSoftmaxEigenImpl.exponent_arguments lowest logits).coeff r c = 0
        ∧ (LogSoftmaxEigenImpl.first_statement lowest exp logits logsoftmax).coeff r c
            = 1) := by
  refine ⟨?_, ?_, ?_⟩
  · intro c hc
    have harg : (LogSoftmaxEigenImpl.exponent_arguments lowest logits).coeff r c ≤ 0 := by
      rw [exponent_arguments_coeff lowest logits r c hr hc]
      exact sub_nonpos.mpr (maximum_ge_coeff lowest logits r c hc)
    rw [first_statement_coeff lowest exp logits logsoftmax h1 r c hr hc]
    refine ⟨harg, hnonneg _, ?_⟩
    rw [← hexp0]
    exact hmono _ _ harg
  · intro hpos c hc
    rw [first_statement_coeff lowest exp logits logsoftmax h1 r c hr hc]
    exact hpos _
  · intro hlow
    obtain ⟨c, hc, hmax⟩ := maximum_attained lowest logits r hn hlow
    have harg : (LogSoftmaxEigenImpl.exponent_arguments lowest logits).coeff r c = 0 := by
      rw [exponent_arguments_coeff lowest logits r c hr hc, hmax, sub_self]
    refine ⟨c, hc, harg, ?_⟩
    rw [first_statement_coeff lowest exp logits logsoftmax h1 r c hr hc, harg, hexp0]

/-- The logits of the row `[0, -1000]` are not below `-FLT_MAX`. -/
theorem row_0_m1000_above_lowest (c : Nat)
    (hc : c < (⟨1, 2, fun i => if i = 0 then 0 else -1000⟩ : ConstMatrix ℝ).dim1) :
    -(FLT_MAX : ℝ)
      ≤ (⟨1, 2, fun i => if i = 0 then 0 else -1000⟩ : ConstMatrix ℝ).coeff 0 c := by
  have hlarge := FLT_MAX_large
  simp only [ConstMatrix.coeff]
  split_ifs <;> linarith

/-- Witness of C15, amended: the row `[0, -1000]` with the start value
`-FLT_MAX`.  With the exponential that underflows, the intermediate value of
column `1` lies in `[0, 1]` and some column has exponent argument `0` and
intermediate value `1`; with the exact exponential the intermediate value of
column `1` is positive. -/
theorem first_statement_bounds_witness :
    ((LogSoftmaxEigenImpl.exponent_arguments (-(FLT_MAX : ℝ))
        ⟨1, 2, fun i => if i = 0 then 0 else -1000⟩).coeff 0 1 ≤ 0
      ∧ 0 ≤ (LogSoftmaxEigenImpl.first_statement (-(FLT_MAX : ℝ))
          (exp_with_underflow Real.exp (-104))
          ⟨1, 2, fun i => if i = 0 then 0 else -1000⟩ ⟨1, 2, fun _ => 0, fun _ => 0⟩).coeff 0 1
      ∧ (LogSoftmaxEigenImpl.first_statement (-(FLT_MAX : ℝ))
          (exp_with_underflow Real.exp (-104))
          ⟨1, 2, fun i => if i = 0 then 0 else -1000⟩ ⟨1, 2, fun _ => 0, fun _ => 0⟩).coeff 0 1
        ≤ 1)
    ∧ (∃ c, c < 2
      ∧ (LogSoftmaxEigenImpl.exponent_arguments (-(FLT_MAX : ℝ))
          ⟨1, 2, fun i => if i = 0 then 0 else -1000⟩).coeff 0 c = 0
      ∧ (LogSoftmaxEigenImpl.first_statement (-(FLT_MAX : ℝ))
          (exp_with_underflow Real.exp (-104))
          ⟨1, 2, fun i => if i = 0 then 0 else -1000⟩ ⟨1, 2, fun _ => 0, fun _ => 0⟩).coeff 0 c
        = 1)
    ∧ 0 < (LogSoftmaxEigenImpl.first_statement (-(FLT_MAX : ℝ)) Real.exp
        ⟨1, 2, fun i => if i = 0 then 0 else -1000⟩ ⟨1, 2, fun _ => 0, fun _ => 0⟩).coeff 0 1 :=
  ⟨(first_statement_bounds (-(FLT_MAX : ℝ)) (exp_with_underflow Real.exp (-104))
      exp_with_underflow_zero exp_with_underflow_mono exp_with_underflow_nonneg
      ⟨1, 2, fun i => if i = 0 then 0 else -1000⟩ ⟨1, 2, fun _ => 0, fun _ => 0⟩
      rfl (by decide) 0 (by decide)).1 1 (by decide),
    (first_statement_bounds (-(FLT_MAX : ℝ)) (exp_with_underflow Real.exp (-104))
      exp_with_underflow_zero exp_with_underflow_mono exp_with_underflow_nonneg
      ⟨1, 2, fun i => if i = 0 then 0 else -1000⟩ ⟨1, 2, fun _ => 0, fun _ => 0⟩
      rfl (by decide) 0 (by decide)).2.2 row_0_m1000_above_lowest,
    (first_statement_bounds (-(FLT_MAX : ℝ)) Real.exp Real.exp_zero
      (fun _ _ h => Real.exp_le_exp.mpr h) (fun x => le_of_lt (Real.exp_pos x))
      ⟨1, 2, fun i => if i = 0 then 0 else -1000⟩ ⟨1, 2, fun _ => 0, fun _ => 0⟩
      rfl (by decide) 0 (by decide)).2.1 Real.exp_pos 1 (by decide)⟩

/-! ## Theorems on the divisor and the outputs -/

/-- C16 as stated fails, in two ways.  (1) With the `float` start value
`-FLT_MAX` of the max reducer and an exponential that underflows, the row
`[0, -1000]` has the output `0` in column `1`, which is not in `(0, 1]`.
(2) In a row whose only logit is below the start value of the max reducer (as
minus infinity is below `-FLT_MAX`), the intermediate value underflows to `0`
and the divisor is `0`: it is below `1` and the division is a division by
zero. -/
theorem divisor_bounds_counterexample :
    (LogSoftmaxEigenImpl.Compute (-(FLT_MAX : ℝ)) (exp_with_underflow Real.exp (-104)) ()
        ⟨1, 2, fun i => if i = 0 then 0 else -1000⟩ ⟨1, 2, fun _ => 0, fun _ => 0⟩).coeff 0 1
      = 0
    ∧ (LogSoftmaxEigenImpl.divisor
        (LogSoftmaxEigenImpl.first_statement (-(FLT_MAX : ℝ))
          (exp_with_underflow Real.exp (-104))
          ⟨1, 1, fun _ => -(2 * (FLT_MAX : ℝ))⟩ ⟨1, 1, fun _ => 0, fun _ => 0⟩)).data 0
      = 0 := by
  constructor
  · rw [Compute_coeff_quotient (-(FLT_MAX : ℝ)) (exp_with_underflow Real.exp (-104)) ()
      ⟨1, 2, fun i => if i = 0 then 0 else -1000⟩ ⟨1, 2, fun _ => 0, fun _ => 0⟩ rfl rfl 0 1
      (by decide) (by decide)]
    rw [underflow_row_intermediate, zero_div]
  · rw [divisor_first_statement (-(FLT_MAX : ℝ)) (exp_with_underflow Real.exp (-104))
      ⟨1, 1, fun _ => -(2 * (FLT_MAX : ℝ))⟩ ⟨1, 1, fun _ => 0, fun _ => 0⟩ rfl 0]
    rw [Finset.sum_range_one]
    rw [first_statement_coeff_exp (-(FLT_MAX : ℝ)) (exp_with_underflow Real.exp (-104))
      ⟨1, 1, fun _ => -(2 * (FLT_MAX : ℝ))⟩ ⟨1, 1, fun _ => 0, fun _ => 0⟩ rfl 0 0
      (by decide) (by decide)]
    apply exp_with_underflow_below
    have hlow := maximum_ge_lowest (-(FLT_MAX : ℝ))
      (⟨1, 1, fun _ => -(2 * (FLT_MAX : ℝ))⟩ : ConstMatrix ℝ) 0
    have hlarge := FLT_MAX_large
    simp only [ConstMatrix.coeff]
    linarith


/-- C16, amended: `Compute` has no failure path: on every input it returns a
matrix of the shape of the output view.  In exact arithmetic on finite values,
for every input matrix, output view of the same shape and row `r` with at least
one column, and for every exponential that is monotone, non-negative and `1` at
`0` (the exact one, and one that underflows to `0`): the divisor `s[r]` of the
second statement satisfies `0 <= s[r] <= num_classes` and every output element
is `t[r,c] / s[r]`; when no logit of the row is below the start value `lowest`
of the max reducer, `1 <= s[r]`, so the division is not a division by zero, and
every output element lies in `[0, 1]`; when the exponential is positive (exact
real arithmetic), `0 < s[r]` and every output element lies in `(0, 1]`. -/
theorem divisor_bounds {Device T : Type} [LinearOrderedField T] (lowest : T) (exp : T → T)
    (hexp0 : exp 0 = 1) (hmono : ∀ x y, x ≤ y → exp x ≤ exp y) (hnonneg : ∀ x, 0 ≤ exp x)
    (d : Device) (logits : ConstMatrix T) (logsoftmax : Matrix T)
    (h0 : logsoftmax.dim0 = logits.dim0) (h1 : logsoftmax.dim1 = logits.dim1)
    (hn : 1 ≤ logits.dim1) (r : Nat) (hr : r < logits.dim0) :
    (0 ≤ (LogSoftmaxEigenImpl.divisor
          (LogSoftmaxEigenImpl.first_statement lowest exp logits logsoftmax)).data r
      ∧ (LogSoftmaxEigenImpl.divisor
          (LogSoftmaxEigenImpl.first_statement lowest exp logits logsoftmax)).data r
        ≤ (logits.dim1 : T))
    ∧ (∀ c, c < logits.dim1 →
        (LogSoftmaxEigenImpl.Compute lowest exp d logits logsoftmax).coeff r c
          = (LogSoftmaxEigenImpl.first_statement lowest exp logits logsoftmax).coeff r c
            / (LogSoftmaxEigenImpl.divisor
                (LogSoftmaxEigenImpl.first_statement lowest exp logits logsoftmax)).data r)
    ∧ ((∀ c, c < logits.dim1 → lowest ≤ logits.coeff r c) →
        1 ≤ (LogSoftmaxEigenImpl.divisor
          (LogSoftmaxEigenImpl.first_statement lowest exp logits logsoftmax)).data r
        ∧ ∀ c, c < logits.dim1 →
          0 ≤ (LogSoftmaxEigenImpl.Compute lowest exp d logits logsoftmax).coeff r c
          ∧ (LogSoftmaxEigenImpl.Compute lowest exp d logits logsoftmax).coeff r c ≤ 1)
    ∧ ((∀ x, 0 < exp x) →
        0 < (LogSoftmaxEigenImpl.divisor
          (LogSoftmaxEigenImpl.first_statement lowest exp logits logsoftmax)).data r
        ∧ ∀ c, c < logits.dim1 →
          0 < (LogSoftmaxEigenImpl.Compute lowest exp d logits logsoftmax).coeff r c
          ∧ (LogSoftmaxEigenImpl.Compute lowest exp d logits logsoftmax).coeff r c ≤ 1)
    ∧ ((LogSoftmaxEigenImpl.Compute lowest exp d logits logsoftmax).dim0 = logits.dim0
      ∧ (LogSoftmaxEigenImpl.Compute lowest exp d logits logsoftmax).dim1 = logits.dim1) := by
  have ht : ∀ c, c < logits.dim1 →
      0 ≤ (LogSoftmaxEigenImpl.first_statement lowest exp logits logsoftmax).coeff r c
      ∧ (LogSoftmaxEigenImpl.first_statement lowest exp logits logsoftmax).coeff r c ≤ 1 := by
    intro c hc
    rw [first_statement_coeff_exp lowest exp logits logsoftmax h1 r c hr hc]
    refine ⟨hnonneg _, ?_⟩
    rw [← hexp0]
    exact hmono _ _ (sub_nonpos.mpr (maximum_ge_coeff lowest logits r c hc))
  have hterm : ∀ c, c < logits.dim1 →
      (LogSoftmaxEigenImpl.first_statement lowest exp logits logsoftmax).coeff r c
        ≤ ∑ c' in Finset.range logits.dim1,
          (LogSoftmaxEigenImpl.first_statement lowest exp logits logsoftmax).coeff r c' := by
    intro c hc
    exact Finset.single_le_sum
      (f := fun c' =>
        (LogSoftmaxEigenImpl.first_statement lowest exp logits logsoftmax).coeff r c')
      (fun c' hc' => (ht c' (Finset.mem_range.mp hc')).1) (Finset.mem_range.mpr hc)
  have hout : ∀ c, c < logits.dim1 →
      (LogSoftmaxEigenImpl.Compute lowest exp d logits logsoftmax).coeff r c
        = (LogSoftmaxEigenImpl.first_statement lowest exp logits logsoftmax).coeff r c
          / ∑ c' in Finset.range logits.dim1,
            (LogSoftmaxEigenImpl.first_statement lowest exp logits logsoftmax).coeff r c' := by
    intro c hc
    rw [Compute_coeff_quotient lowest exp d logits logsoftmax h0 h1 r c hr hc,
      divisor_first_statement lowest exp logits logsoftmax h1 r]
  have hs := divisor_first_statement lowest exp logits logsoftmax h1 r
  refine ⟨⟨?_, ?_⟩, ?_, ?_, ?_, ⟨by rw [Compute_dim0, h0], by rw [Compute_dim1, h1]⟩⟩
  · rw [hs]
    exact Finset.sum_nonneg (fun c' hc' => (ht c' (Finset.mem_range.mp hc')).1)
  · rw [hs]
    have hle := Finset.sum_le_card_nsmul (Finset.range logits.dim1)
      (fun c' =>
        (LogSoftmaxEigenImpl.first_statement lowest exp logits logsoftmax).coeff r c')
      (1 : T) (fun c' hc' => (ht c' (Finset.mem_range.mp hc')).2)
    simpa using hle
  · intro c hc
    exact Compute_coeff_quotient lowest exp d logits logsoftmax h0 h1 r c hr hc
  · intro hlow
    obtain ⟨c0, hc0, hmax⟩ := maximum_attained lowest logits r hn hlow
    have hone : (LogSoftmaxEigenImpl.first_statement lowest exp logits logsoftmax).coeff r c0
        = 1 := by
      rw [first_statement_coeff_exp lowest exp logits logsoftmax h1 r c0 hr hc0, hmax,
        sub_self, hexp0]
    have hs1 : 1 ≤ ∑ c' in Finset.range logits.dim1,
        (LogSoftmaxEigenImpl.first_statement lowest exp logits logsoftmax).coeff r c' := by
      rw [← hone]
      exact hterm c0 hc0
    have hspos : 0 < ∑ c' in Finset.range logits.dim1,
        (LogSoftmaxEigenImpl.first_statement lowest exp logits logsoftmax).coeff r c' :=
      lt_of_lt_of_le zero_lt_one hs1
    rw [hs]
    refine ⟨hs1, ?_⟩
    intro c hc
    rw [hout c hc]
    exact ⟨div_nonneg (ht c hc).1 (le_of_lt hspos), (div_le_one hspos).mpr (hterm c hc)⟩
  · intro hpos
    have htpos : ∀ c, c < logits.dim1 →
        0 < (LogSoftmaxEigenImpl.first_statement lowest exp logits logsoftmax).coeff r c := by
      intro c hc
      rw [first_statement_coeff_exp lowest exp logits logsoftmax h1 r c hr hc]
      exact hpos _
    have hspos : 0 < ∑ c' in Finset.range logits.dim1,
        (LogSoftmaxEigenImpl.first_statement lowest exp logits logsoftmax).coeff r c' :=
      lt_of_lt_of_le (htpos 0 hn) (hterm 0 hn)
    rw [hs]
    refine ⟨hspos, ?_⟩
    intro c hc
    rw [hout c hc]
    exact ⟨div_pos (htpos c hc) hspos, (div_le_one hspos).mpr (hterm c hc)⟩

/-- Witness of C16, amended: the row `[0, -1000]` with the start value
`-FLT_MAX`.  No logit is below the start value, so with the exponential that
underflows the divisor is at least `1`; with the exact exponential the divisor
is positive. -/
theorem divisor_bounds_witness :
    1 ≤ (LogSoftmaxEigenImpl.divisor
      (LogSoftmaxEigenImpl.first_statement (-(FLT_MAX : ℝ))
        (exp_with_underflow Real.exp (-104))
        ⟨1, 2, fun i => if i = 0 then 0 else -1000⟩ ⟨1, 2, fun _ => 0, fun _ => 0⟩)).data 0
    ∧ 0 < (LogSoftmaxEigenImpl.divisor
      (LogSoftmaxEigenImpl.first_statement (-(FLT_MAX : ℝ)) Real.exp
        ⟨1, 2, fun i => if i = 0 then 0 else -1000⟩ ⟨1, 2, fun _ => 0, fun _ => 0⟩)).data 0 :=
  ⟨((divisor_bounds (-(FLT_MAX : ℝ)) (exp_with_underflow Real.exp (-104))
      exp_with_underflow_zero exp_with_underflow_mono exp_with_underflow_nonneg ()
      ⟨1, 2, fun i => if i = 0 then 0 else -1000⟩ ⟨1, 2, fun _ => 0, fun _ => 0⟩
      rfl rfl (by decide) 0 (by decide)).2.2.1 row_0_m1000_above_lowest).1,
    ((divisor_bounds (-(FLT_MAX : ℝ)) Real.exp Real.exp_zero
      (fun _ _ h => Real.exp_le_exp.mpr h) (fun x => le_of_lt (Real.exp_pos x)) ()
      ⟨1, 2, fun i => if i = 0 then 0 else -1000⟩ ⟨1, 2, fun _ => 0, fun _ => 0⟩
      rfl rfl (by decide) 0 (by decide)).2.2.2.1 Real.exp_pos).1⟩

/-! ## Theorems on the order of the outputs within a row -/

/-- With the start value `-FLT_MAX` and the exponential that underflows, the
intermediate values of columns `1` and `2` of the row `[0, -1000, -2000]` are
`0`. -/
theorem underflow_row3_intermediate (c : Nat) (hc1 : 1 ≤ c) (hc3 : c < 3) :
    (LogSoftmaxEigenImpl.first_statement (-(FLT_MAX : ℝ)) (exp_with_underflow Real.exp (-104))
        ⟨1, 3, fun i => if i = 0 then 0 else if i = 1 then -1000 else -2000⟩
        ⟨1, 3, fun _ => 0, fun _ => 0⟩).coeff 0 c = 0 := by
  rw [first_statement_coeff_exp (-(FLT_MAX : ℝ)) (exp_with_underflow Real.exp (-104))
    ⟨1, 3, fun i => if i = 0 then 0 else if i = 1 then -1000 else -2000⟩
    ⟨1, 3, fun _ => 0, fun _ => 0⟩ rfl 0 c (by decide) hc3]
  apply exp_with_underflow_below
  have hmax := maximum_ge_coeff (-(FLT_MAX : ℝ))
    (⟨1, 3, fun i => if i = 0 then 0 else if i = 1 then -1000 else -2000⟩ : ConstMatrix ℝ)
    0 0 (by decide)
  simp only [ConstMatrix.coeff] at hmax ⊢
  norm_num at hmax ⊢
  have hc0 : c ≠ 0 := by omega
  rw [if_neg hc0]
  split_ifs <;> linarith

/-- C19 as stated fails: with the `float` start value `-FLT_MAX` of the max
reducer and an exponential that underflows, the row `[0, -1000, -2000]` gets
equal outputs in columns `1` and `2` (both `0`) although the two logits
differ. -/
theorem Compute_order_counterexample :
    (LogSoftmaxEigenImpl.Compute (-(FLT_MAX : ℝ)) (exp_with_underflow Real.exp (-104)) ()
        ⟨1, 3, fun i => if i = 0 then 0 else if i = 1 then -1000 else -2000⟩
        ⟨1, 3, fun _ => 0, fun _ => 0⟩).coeff 0 1
      = (LogSoftmaxEigenImpl.Compute (-(FLT_MAX : ℝ)) (exp_with_underflow Real.exp (-104)) ()
        ⟨1, 3, fun i => if i = 0 then 0 else if i = 1 then -1000 else -2000⟩
        ⟨1, 3, fun _ => 0, fun _ => 0⟩).coeff 0 2
    ∧ (⟨1, 3, fun i => if i = 0 then 0 else if i = 1 then -1000 else -2000⟩
        : ConstMatrix ℝ).coeff 0 1
      ≠ (⟨1, 3, fun i => if i = 0 then 0 else if i = 1 then -1000 else -2000⟩
        : ConstMatrix ℝ).coeff 0 2 := by
  constructor
  · rw [Compute_coeff_quotient (-(FLT_MAX : ℝ)) (exp_with_underflow Real.exp (-104)) ()
        ⟨1, 3, fun i => if i = 0 then 0 else if i = 1 then -1000 else -2000⟩
        ⟨1, 3, fun _ => 0, fun _ => 0⟩ rfl rfl 0 1 (by decide) (by decide),
      Compute_coeff_quotient (-(FLT_MAX : ℝ)) (exp_with_underflow Real.exp (-104)) ()
        ⟨1, 3, fun i => if i = 0 then 0 else if i = 1 then -1000 else -2000⟩
        ⟨1, 3, fun _ => 0, fun _ => 0⟩ rfl rfl 0 2 (by decide) (by decide),
      underflow_row3_intermediate 1 (by decide) (by decide),
      underflow_row3_intermediate 2 (by decide) (by decide)]
  · simp only [ConstMatrix.coeff]
    norm_num

/-- C19, amended: in exact arithmetic on finite values, for every input matrix,
output view of the same shape, row `r` and columns `a`, `b`, and for every
exponential that is monotone and non-negative (the exact one, and one that
underflows to `0`): `logits[r,a] <= logits[r,b]` implies
`output[r,a] <= output[r,b]`, and equal logits receive equal outputs; when the
exponential is strictly increasing and positive (exact real arithmetic), the two
outputs are equal exactly when the two logits are equal. -/
theorem Compute_order_preserving {Device T : Type} [LinearOrderedField T] (lowest : T)
    (exp : T → T) (hmono : ∀ x y, x ≤ y → exp x ≤ exp y) (hnonneg : ∀ x, 0 ≤ exp x)
    (d : Device) (logits : ConstMatrix T) (logsoftmax : Matrix T)
    (h0 : logsoftmax.dim0 = logits.dim0) (h1 : logsoftmax.dim1 = logits.dim1)
    (r a b : Nat) (hr : r < logits.dim0) (ha : a < logits.dim1) (hb : b < logits.dim1) :
    (logits.coeff r a ≤ logits.coeff r b →
      (LogSoftmaxEigenImpl.Compute lowest exp d logits logsoftmax).coeff r a
        ≤ (LogSoftmaxEigenImpl.Compute lowest exp d logits logsoftmax).coeff r b)
    ∧ (logits.coeff r a = logits.coeff r b →
      (LogSoftmaxEigenImpl.Compute lowest exp d logits logsoftmax).coeff r a
        = (LogSoftmaxEigenImpl.Compute lowest exp d logits logsoftmax).coeff r b)
    ∧ ((∀ x y, x < y → exp x < exp y) → (∀ x, 0 < exp x) →
      ((LogSoftmaxEigenImpl.Compute lowest exp d logits logsoftmax).coeff r a
          = (LogSoftmaxEigenImpl.Compute lowest exp d logits logsoftmax).coeff r b
        ↔ logits.coeff r a = logits.coeff r b)) := by
  have hout : ∀ c, c < logits.dim1 →
      (LogSoftmaxEigenImpl.Compute lowest exp d logits logsoftmax).coeff r c
        = exp (logits.coeff r c - (Eigen.maximum lowest logits 1).data r)
          / ∑ c' in Finset.range logits.dim1,
            exp (logits.coeff r c' - (Eigen.maximum lowest logits 1).data r) := by
    intro c hc
    rw [Compute_coeff_quotient lowest exp d logits logsoftmax h0 h1 r c hr hc,
      divisor_first_statement lowest exp logits logsoftmax h1 r,
      first_statement_coeff_exp lowest exp logits logsoftmax h1 r c hr hc]
    congr 1
    apply Finset.sum_congr rfl
    intro c' hc'
    exact first_statement_coeff_exp lowest exp logits logsoftmax h1 r c' hr
      (Finset.mem_range.mp hc')
  have hs : 0 ≤ ∑ c' in Finset.range logits.dim1,
      exp (logits.coeff r c' - (Eigen.maximum lowest logits 1).data r) :=
    Finset.sum_nonneg (fun c' _ => hnonneg _)
  rw [hout a ha, hout b hb]
  refine ⟨?_, ?_, ?_⟩
  · intro hab
    exact div_le_div_of_nonneg_right (hmono _ _ (sub_le_sub_right hab _)) hs
  · intro hab
    rw [hab]
  · intro hstrict hpos
    have hspos : 0 < ∑ c' in Finset.range logits.dim1,
        exp (logits.coeff r c' - (Eigen.maximum lowest logits 1).data r) :=
      Finset.sum_pos (fun c' _ => hpos _) ⟨a, Finset.mem_range.mpr ha⟩
    constructor
    · intro heq
      have hexp : exp (logits.coeff r a - (Eigen.maximum lowest logits 1).data r)
          = exp (logits.coeff r b - (Eigen.maximum lowest logits 1).data r) := by
        have hmul := congrArg (fun v => v * ∑ c' in Finset.range logits.dim1,
          exp (logits.coeff r c' - (Eigen.maximum lowest logits 1).data r)) heq
        simpa [div_mul_cancel₀ _ (ne_of_gt hspos)] using hmul
      rcases lt_trichotomy (logits.coeff r a) (logits.coeff r b) with hlt | heq2 | hgt
      · exact absurd hexp (ne_of_lt (hstrict _ _ (sub_lt_sub_right hlt _)))
      · exact heq2
      · exact absurd hexp.symm (ne_of_lt (hstrict _ _ (sub_lt_sub_right hgt _)))
    · intro hab
      rw [hab]

/-- Witness of C19, amended: the row `[0, -1000, -2000]` with the start value
`-FLT_MAX`, columns `2` and `1`.  With the exponential that underflows the
output of column `2` is at most that of column `1`; with the exact exponential
the two outputs differ, as the two logits do. -/
theorem Compute_order_preserving_witness :
    (LogSoftmaxEigenImpl.Compute (-(FLT_MAX : ℝ)) (exp_with_underflow Real.exp (-104)) ()
        ⟨1, 3, fun i => if i = 0 then 0 else if i = 1 then -1000 else -2000⟩
        ⟨1, 3, fun _ => 0, fun _ => 0⟩).coeff 0 2
      ≤ (LogSoftmaxEigenImpl.Compute (-(FLT_MAX : ℝ)) (exp_with_underflow Real.exp (-104)) ()
        ⟨1, 3, fun i => if i = 0 then 0 else if i = 1 then -1000 else -2000⟩
        ⟨1, 3, fun _ => 0, fun _ => 0⟩).coeff 0 1
    ∧ (LogSoftmaxEigenImpl.Compute (-(FLT_MAX : ℝ)) Real.exp ()
        ⟨1, 3, fun i => if i = 0 then 0 else if i = 1 then -1000 else -2000⟩
        ⟨1, 3, fun _ => 0, fun _ => 0⟩).coeff 0 2
      ≠ (LogSoftmaxEigenImpl.Compute (-(FLT_MAX : ℝ)) Real.exp ()
        ⟨1, 3, fun i => if i = 0 then 0 else if i = 1 then -1000 else -2000⟩
        ⟨1, 3, fun _ => 0, fun _ => 0⟩).coeff 0 1 :=
  ⟨(Compute_order_preserving (-(FLT_MAX : ℝ)) (exp_with_underflow Real.exp (-104))
      exp_with_underflow_mono exp_with_underflow_nonneg ()
      ⟨1, 3, fun i => if i = 0 then 0 else if i = 1 then -1000 else -2000⟩
      ⟨1, 3, fun _ => 0, fun _ => 0⟩ rfl rfl 0 2 1 (by decide) (by decide) (by decide)).1
      (by simp only [ConstMatrix.coeff]; norm_num),
    fun heq => absurd
      (((Compute_order_preserving (-(FLT_MAX : ℝ)) Real.exp
        (fun _ _ h => Real.exp_le_exp.mpr h) (fun x => le_of_lt (Real.exp_pos x)) ()
        ⟨1, 3, fun i => if i = 0 then 0 else if i = 1 then -1000 else -2000⟩
        ⟨1, 3, fun _ => 0, fun _ => 0⟩ rfl rfl 0 2 1 (by decide) (by decide) (by decide)).2.2
        (fun _ _ h => Real.exp_lt_exp.mpr h) Real.exp_pos).mp heq)
      (by simp only [ConstMatrix.coeff]; norm_num)⟩

end tensorflow
